import Mathlib

/-!
# Verification of the cedar-policy-validator schema compiler

A shallow embedding of `cedar-policy-validator/src/schema.rs`: the data model,
the per-fragment compiler (`ValidatorNamespaceDef::from_namespace_definition`),
the fragment merger (`ValidatorSchema::from_schema_fragments`), the hierarchy
closer and the consistency checker (`check_for_undeclared`), together with
theorems settling the specification's claims about them.

Rust `HashMap`/`HashSet` values are embedded as association lists / lists with
insertion deduplication; only membership and emptiness of these collections are
observable in the properties proved here, so iteration order is immaterial.
-/

namespace CedarSchema

/-! ## Name machinery

The name parser (`cedar_policy_core::parser::{parse_name, parse_namespace}`)
is not part of this repository's sources.  Modelled from the spec (section 4.1):
an identifier is a non-empty token of the language's identifier grammar, and
`parse_qualified` accepts `A::B::C`, rejecting empty segments, leading `::`
or trailing `::`.
-/

/-- Modelled from the spec: an identifier is a non-empty token matching the
identifier grammar (a letter or underscore followed by letters, digits or
underscores). -/
def isValidId (s : String) : Bool :=
  match s.data with
  | [] => false
  | c :: cs => (c.isAlpha || c = '_') && cs.all (fun d => d.isAlphanum || d = '_')

/-- A fully qualified name: a (possibly empty) namespace path plus a base name.
Mirrors `cedar_policy_core::ast::Name`. -/
structure Name where
  path : List String
  base : String
deriving DecidableEq, Repr

/-- Split a character list into segments separated by the two-character
separator `::`. -/
def splitSegsAux : List Char → List Char → List (List Char)
  | [], cur => [cur.reverse]
  | ':' :: ':' :: rest, cur => cur.reverse :: splitSegsAux rest []
  | c :: rest, cur => splitSegsAux rest (c :: cur)

/-- The `::`-separated segments of a string. -/
def splitSegs (s : String) : List String :=
  (splitSegsAux s.data []).map (fun l => String.mk l)

/-- Modelled from the spec: `parse_name` parses a possibly qualified name
`A::B::C`; every segment must be a valid identifier. -/
def parseName (s : String) : Option Name :=
  let segs := splitSegs s
  match segs.getLast? with
  | some base => if segs.all isValidId then some ⟨segs.dropLast, base⟩ else none
  | none => none

/-- Modelled from the spec: `parse_namespace` parses a namespace string into
its segment list; the empty string denotes the root namespace. -/
def parseNamespace (s : String) : Option (List String) :=
  if s = "" then some []
  else
    let segs := splitSegs s
    if segs.all isValidId then some segs else none

/-- Mirrors `ValidatorNamespaceDef::parse_possibly_qualified_name_with_default_namespace`:
parse a name and, when it has no namespace components and the default
namespace is non-empty, qualify it with the default namespace. -/
def parsePQN (s : String) (defaultNamespace : List String) : Option Name := do
  let n ← parseName s
  if n.path = [] && defaultNamespace ≠ [] then
    pure ⟨defaultNamespace, n.base⟩
  else
    pure n

/-- Mirrors `ValidatorNamespaceDef::parse_unqualified_name_with_namespace`:
the string must be a bare identifier, which becomes the base name under the
given namespace. -/
def parseUnqualified (s : String) (namespace' : List String) : Option Name :=
  if isValidId s then some ⟨namespace', s⟩ else none

/-- Render a `Name` back to its source string, mirroring `Name`'s `Display`. -/
def nameToString (n : Name) : String :=
  String.intercalate "::" (n.path ++ [n.base])

/-- Mirrors `cedar_policy_core::ast::EntityType`: either a concrete entity
type name or the unspecified sentinel. -/
inductive EntityType where
  | unspecified : EntityType
  | concrete : Name → EntityType
deriving DecidableEq, Repr

/-- Mirrors `cedar_policy_core::ast::EntityUID`: an entity type together with
an entity id.  Action ids are represented this way. -/
structure EntityUID where
  ty : Name
  eid : String
deriving DecidableEq, Repr

/-- Render an `EntityUID` as `Type::"eid"`, mirroring its `Display`. -/
def uidToString (u : EntityUID) : String :=
  nameToString u.ty ++ "::\x22" ++ u.eid ++ "\x22"

/-- `ACTION_ENTITY_TYPE`: the reserved base name for action entity types. -/
def actionEntityType : String := "Action"

/-- Mirrors `is_action_entity_type`: compares the base name against
`ACTION_ENTITY_TYPE`, ignoring namespaces. -/
def isActionEntityType (n : Name) : Bool := n.base = actionEntityType

/-! ## Errors -/

/-- Mirrors `SchemaError` from `cedar-policy-validator/src/err.rs` (declared
outside `src/`; the variant list follows the spec's section 7 error taxonomy
and the constructor sites in `schema.rs`).  Parse-error payloads are embedded
as the offending source string. -/
inductive SchemaError where
  | entityTypeParseError (s : String)
  | commonTypeParseError (s : String)
  | extensionTypeParseError (s : String)
  | namespaceParseError (s : String)
  | duplicateEntityType (s : String)
  | duplicateAction (s : String)
  | duplicateCommonType (s : String)
  | undeclaredEntityTypes (names : List String)
  | undeclaredActions (names : List String)
  | undeclaredCommonType (names : List String)
  | actionEntityTypeDeclared
  | actionEntityAttributes (names : List String)
  | actionEntityAttributeEmptySet
  | actionEntityAttributeUnsupportedType
  | contextOrShapeNotRecord
  | cycleInActionHierarchy
  | unsupportedSchemaFeatureOpenRecords
deriving DecidableEq, Repr

/-! ## The validator's type language

Mirrors `crate::types::Type` (defined outside `src/`; the shape is fixed by
the spec's section 3 `ValidatorType` and by how `schema.rs` constructs and
destructs it).  Record attribute maps are a dedicated list-like inductive so
that all recursions are structural. -/

mutual

inductive VType where
  | primBool : VType
  | primLong : VType
  | primString : VType
  | setNone : VType
  | setOf : VType → VType
  | record : VAttrs → VType
  | entityLUB : List Name → VType
  | ext : String → VType
deriving DecidableEq, Repr

/-- An attribute map: attribute name, attribute type, `required` flag. -/
inductive VAttrs where
  | nil : VAttrs
  | cons (name : String) (ty : VType) (required : Bool) (rest : VAttrs) : VAttrs
deriving DecidableEq, Repr

end

/-! ## The schema file format

Mirrors `SchemaType` / `SchemaTypeVariant` / `TypeOfAttribute` from
`schema_file_format.rs` (outside `src/`; the shape is fixed by the spec's
section 6 wire format and the match in
`try_schema_type_into_validator_type`). -/

mutual

inductive SchemaType where
  | string : SchemaType
  | long : SchemaType
  | boolean : SchemaType
  | set (element : SchemaType) : SchemaType
  | record (attributes : SAttrs) (additionalAttributes : Bool) : SchemaType
  | entity (name : String) : SchemaType
  | extension (name : String) : SchemaType
  | typeDef (typeName : String) : SchemaType
deriving DecidableEq, Repr

/-- Record attributes as written in a schema file: name, schema type,
`required` flag (`TypeOfAttribute`). -/
inductive SAttrs where
  | nil : SAttrs
  | cons (name : String) (ty : SchemaType) (required : Bool) (rest : SAttrs) : SAttrs
deriving DecidableEq, Repr

end

/-- `SCHEMA_TYPE_VARIANT_TAGS`: the built-in type names a common type may not
reuse. -/
def schemaTypeVariantTags : List String :=
  ["String", "Long", "Boolean", "Set", "Record", "Entity", "Extension"]

/-- Mirrors `ValidatorNamespaceDef::is_builtin_type_name`. -/
def isBuiltinTypeName (s : String) : Bool := schemaTypeVariantTags.contains s

/-! ## Action attribute values

Mirrors `cedar_policy_core::entities::JSONValue` (outside `src/`): the
variants inspected by `jsonval_to_type_helper`; all remaining variants
(expression/entity/extension escapes) are collapsed into `other`, which that
function rejects. -/

mutual

inductive JSONValue where
  | bool (b : Bool) : JSONValue
  | long (n : Int) : JSONValue
  | string (s : String) : JSONValue
  | record (fields : JFields) : JSONValue
  | set (elems : JList) : JSONValue
  | other : JSONValue
deriving DecidableEq, Repr

inductive JFields where
  | nil : JFields
  | cons (name : String) (v : JSONValue) (rest : JFields) : JFields
deriving DecidableEq, Repr

inductive JList where
  | nil : JList
  | cons (v : JSONValue) (rest : JList) : JList
deriving DecidableEq, Repr

end

/-! ## Raw fragment structures

Mirrors `NamespaceDefinition`, `EntityType`, `ActionType`, `ApplySpec`,
`ActionEntityUID` from `schema_file_format.rs` (outside `src/`; shapes fixed
by the spec's section 6 wire format).  The JSON maps are embedded as
association lists; a Rust `HashMap` input always has pairwise distinct keys. -/

/-- An entity type declaration: `memberOfTypes` plus the `shape` schema type
(the parser supplies an empty record when `shape` is omitted). -/
structure EntityTypeFragment where
  memberOfTypes : List String
  shape : SchemaType
deriving DecidableEq, Repr

/-- An action parent reference from a `memberOf` list: an id plus an optional
explicit entity type string. -/
structure ActionEntityUID where
  id : String
  ty : Option String
deriving DecidableEq, Repr

/-- `ActionEntityUID::default_type`: an action reference with no explicit
type. -/
def ActionEntityUID.defaultType (id : String) : ActionEntityUID := ⟨id, none⟩

/-- An action's `appliesTo` clause (the parser supplies an empty record when
`context` is omitted). -/
structure ApplySpecFragment where
  resourceTypes : Option (List String)
  principalTypes : Option (List String)
  context : SchemaType
deriving DecidableEq, Repr

/-- An action declaration. -/
structure ActionTypeFragment where
  appliesTo : Option ApplySpecFragment
  memberOf : Option (List ActionEntityUID)
  attributes : Option (List (String × JSONValue))
deriving DecidableEq, Repr

/-- A single namespace definition as parsed from the schema JSON. -/
structure NamespaceDefinition where
  commonTypes : List (String × SchemaType)
  entityTypes : List (String × EntityTypeFragment)
  actions : List (String × ActionTypeFragment)
deriving DecidableEq, Repr

/-- Mirrors `ActionBehavior`. -/
inductive ActionBehavior where
  | prohibitAttributes : ActionBehavior
  | permitAttributes : ActionBehavior
deriving DecidableEq, Repr

/-! ## List-embedded maps and sets -/

/-- Insert into a list-embedded set, keeping one occurrence per element. -/
def insertElem {α : Type} [DecidableEq α] (x : α) (l : List α) : List α :=
  if x ∈ l then l else x :: l

/-- Union of two list-embedded sets. -/
def listUnion {α : Type} [DecidableEq α] (l₁ l₂ : List α) : List α :=
  l₂.foldl (fun acc x => insertElem x acc) l₁

/-- Lookup in an association list (first matching key, as in a map). -/
def lookupKey {κ α : Type} [DecidableEq κ] (m : List (κ × α)) (k : κ) : Option α :=
  match m.find? (fun p => p.1 = k) with
  | some p => some p.2
  | none => none

/-- Key membership in an association list. -/
def containsKey {κ α : Type} [DecidableEq κ] (m : List (κ × α)) (k : κ) : Bool :=
  m.any (fun p => p.1 = k)

/-- Add `child` to the child set of `parent`, creating the entry when absent
(mirrors `children.entry(..).or_insert_with(HashSet::new).insert(..)`). -/
def addChild {κ : Type} [DecidableEq κ] (m : List (κ × List κ)) (parent child : κ) :
    List (κ × List κ) :=
  match containsKey m parent with
  | true => m.map (fun p => if p.1 = parent then (p.1, insertElem child p.2) else p)
  | false => m ++ [(parent, [child])]

/-- Effectful map over a list, failing on the first failing element
(the semantics of `collect::<Result<_, _>>()`). -/
def exceptMapM {ε α β : Type} (f : α → Except ε β) : List α → Except ε (List β)
  | [] => .ok []
  | x :: t => do
      let y ← f x
      let r ← exceptMapM f t
      .ok (y :: r)

/-- Effectful left fold over a list, failing on the first failing step. -/
def exceptFoldlM {ε α β : Type} (f : β → α → Except ε β) : β → List α → Except ε β
  | b, [] => .ok b
  | b, x :: t => do
      let b' ← f b x
      exceptFoldlM f b' t

/-! ## Deferred type resolution

Mirrors `WithUnresolvedTypeDefs<T>`: a closure from the merged type-def table
to a result.  (`WithoutUnresolved` values are closures ignoring the table;
`resolve_type_defs` is application.) -/

/-- The merged common-type table. -/
def TypeDefs : Type := List (Name × VType)

/-- A deferred value: resolves against a type-def table. -/
def Deferred (α : Type) : Type := TypeDefs → Except SchemaError α

/-! ## Schema type conversion

Mirrors `ValidatorNamespaceDef::try_schema_type_into_validator_type` and
`parse_record_attributes`. -/

/-- The resolution half of `parse_record_attributes`: resolve each converted
attribute against the type-def table. -/
def resolveAttrs : List (String × Deferred VType × Bool) → TypeDefs →
    Except SchemaError VAttrs
  | [], _ => .ok .nil
  | (name, d, required) :: rest, tds => do
      let t ← d tds
      let r ← resolveAttrs rest tds
      .ok (.cons name t required r)

mutual

/-- Mirrors `try_schema_type_into_validator_type`: convert a schema-file type
into a (possibly deferred) validator type. -/
def trySchemaTypeIntoValidatorType (defaultNamespace : List String) :
    SchemaType → Except SchemaError (Deferred VType)
  | .string => .ok (fun _ => .ok .primString)
  | .long => .ok (fun _ => .ok .primLong)
  | .boolean => .ok (fun _ => .ok .primBool)
  | .set element => do
      let d ← trySchemaTypeIntoValidatorType defaultNamespace element
      .ok (fun tds => do
        let t ← d tds
        .ok (.setOf t))
  | .record attributes additionalAttributes =>
      if additionalAttributes then
        .error .unsupportedSchemaFeatureOpenRecords
      else do
        let ds ← convertSAttrs defaultNamespace attributes
        .ok (fun tds => do
          let va ← resolveAttrs ds tds
          .ok (.record va))
  | .entity name =>
      match parsePQN name defaultNamespace with
      | some n => .ok (fun _ => .ok (.entityLUB [n]))
      | none => .error (.entityTypeParseError name)
  | .extension name =>
      if isValidId name then .ok (fun _ => .ok (.ext name))
      else .error (.extensionTypeParseError name)
  | .typeDef typeName =>
      match parsePQN typeName defaultNamespace with
      | some q => .ok (fun tds =>
          match lookupKey tds q with
          | some ty => .ok ty
          | none => .error (.undeclaredCommonType [typeName]))
      | none => .error (.commonTypeParseError typeName)

/-- The attribute half of `parse_record_attributes`: convert every attribute
type, keeping the `required` flag. -/
def convertSAttrs (defaultNamespace : List String) :
    SAttrs → Except SchemaError (List (String × Deferred VType × Bool))
  | .nil => .ok []
  | .cons name ty required rest => do
      let d ← trySchemaTypeIntoValidatorType defaultNamespace ty
      let r ← convertSAttrs defaultNamespace rest
      .ok ((name, d, required) :: r)

end

/-! ## Action attribute value inference -/

mutual

/-- Mirrors `jsonval_to_type_helper`: infer a validator type from a literal
attribute value.  Sets are inferred from element zero; empty sets and
unsupported variants are errors. -/
def jsonvalToTypeHelper : JSONValue → Except SchemaError VType
  | .bool _ => .ok .primBool
  | .long _ => .ok .primLong
  | .string _ => .ok .primString
  | .record fields => do
      let attrs ← jfieldsToAttrs fields
      .ok (.record attrs)
  | .set .nil => .error .actionEntityAttributeEmptySet
  | .set (.cons v _) => do
      let t ← jsonvalToTypeHelper v
      .ok (.setOf t)
  | .other => .error .actionEntityAttributeUnsupportedType

/-- The record case of `jsonval_to_type_helper`: every field is inferred and
required (`Attributes::with_required_attributes`). -/
def jfieldsToAttrs : JFields → Except SchemaError VAttrs
  | .nil => .ok .nil
  | .cons name v rest => do
      let t ← jsonvalToTypeHelper v
      let r ← jfieldsToAttrs rest
      .ok (.cons name t true r)

end

/-- Mirrors `convert_attr_jsonval_map_to_attributes`: infer a required
attribute for every entry of the action's `attributes` map. -/
def convertAttrJsonvalMapToAttributes :
    List (String × JSONValue) → Except SchemaError VAttrs
  | [] => .ok .nil
  | (name, v) :: rest => do
      let t ← jsonvalToTypeHelper v
      let r ← convertAttrJsonvalMapToAttributes rest
      .ok (.cons name t true r)

/-! ## Apply specs and action ids -/

/-- Mirrors `ValidatorApplySpec`. -/
structure ValidatorApplySpec where
  principalApplySpec : List EntityType
  resourceApplySpec : List EntityType
deriving DecidableEq, Repr

/-- Mirrors `ValidatorNamespaceDef::parse_apply_spec_type_list`: an absent
list yields the singleton unspecified set; a present list is parsed
entry-wise into `Concrete` names collected as a set. -/
def parseApplySpecTypeList (types : Option (List String))
    (namespace' : List String) : Except SchemaError (List EntityType) :=
  match types with
  | some ts => do
      let parsed ← exceptMapM (fun tyStr =>
        match parsePQN tyStr namespace' with
        | some n => Except.ok (EntityType.concrete n)
        | none => Except.error (SchemaError.entityTypeParseError tyStr)) ts
      .ok (parsed.foldl (fun acc x => insertElem x acc) [])
  | none => .ok [.unspecified]

/-- Mirrors `ValidatorNamespaceDef::parse_action_id_with_namespace`: an
explicit type string is parsed with no default namespace applied; an absent
type becomes `Action` under the given namespace. -/
def parseActionIdWithNamespace (actionId : ActionEntityUID)
    (namespace' : List String) : Except SchemaError EntityUID :=
  match actionId.ty with
  | some tyStr =>
      match parseName tyStr with
      | some n => .ok ⟨n, actionId.id⟩
      | none => .error (.entityTypeParseError tyStr)
  | none => .ok ⟨⟨namespace', actionEntityType⟩, actionId.id⟩

/-! ## Per-fragment compiled structures -/

/-- Mirrors `EntityTypesDef`. -/
structure EntityTypesDef where
  attributes : List (Name × Deferred VType)
  children : List (Name × List Name)

/-- Mirrors `ActionsDef`. -/
structure ActionsDef where
  contextAppliesTo : List (EntityUID × (Deferred VType × ValidatorApplySpec))
  children : List (EntityUID × List EntityUID)
  attributes : List (EntityUID × VAttrs)

/-- Mirrors `ValidatorNamespaceDef`. -/
structure ValidatorNamespaceDef where
  namespace' : Option Name
  typeDefs : List (Name × VType)
  entityTypes : EntityTypesDef
  actions : ActionsDef

/-! ## Fragment compiler -/

/-- The duplicate-detection loop at the start of
`from_namespace_definition`: walk the keys, remembering those seen, and
report the first key already seen. -/
def firstDuplicate : List String → List String → Option String
  | [], _ => none
  | k :: rest, seen => if k ∈ seen then some k else firstDuplicate rest (k :: seen)

/-- Mirrors `ValidatorNamespaceDef::check_action_behavior`: reject an entity
type literally named `Action`, then, under `ProhibitAttributes`, collect
every action carrying an `attributes` field and reject them all at once. -/
def checkActionBehavior (schemaFile : NamespaceDefinition)
    (actionBehavior : ActionBehavior) : Except SchemaError Unit :=
  if schemaFile.entityTypes.any (fun p => p.1 = actionEntityType) then
    .error .actionEntityTypeDeclared
  else
    match actionBehavior with
    | .prohibitAttributes =>
        let actionsWithAttributes :=
          (schemaFile.actions.filter (fun p => p.2.attributes.isSome)).map (fun p => p.1)
        if actionsWithAttributes ≠ [] then
          .error (.actionEntityAttributes actionsWithAttributes)
        else
          .ok ()
    | .permitAttributes => .ok ()

/-- One entry of `build_type_defs`: reject built-in names, parse the alias
name under the fragment namespace, convert the body and resolve it against an
empty type-def table. -/
def buildTypeDefEntry (schemaNamespace : List String) (p : String × SchemaType) :
    Except SchemaError (Name × VType) :=
  if isBuiltinTypeName p.1 then
    .error (.duplicateCommonType p.1)
  else
    match parseUnqualified p.1 schemaNamespace with
    | none => .error (.commonTypeParseError p.1)
    | some name => do
        let d ← trySchemaTypeIntoValidatorType schemaNamespace p.2
        let ty ← d []
        .ok (name, ty)

/-- Mirrors `ValidatorNamespaceDef::build_type_defs`. -/
def buildTypeDefs (schemaFileTypeDef : List (String × SchemaType))
    (schemaNamespace : List String) : Except SchemaError (List (Name × VType)) :=
  exceptMapM (buildTypeDefEntry schemaNamespace) schemaFileTypeDef

/-- The `member_of` inversion loop of `build_entity_types`: parse each parent
(possibly qualified) and insert the (unqualified, then namespaced) child into
the parent's child set. -/
def buildEntityChildren (schemaFilesTypes : List (String × EntityTypeFragment))
    (schemaNamespace : List String) :
    Except SchemaError (List (Name × List Name)) :=
  exceptFoldlM (fun children p =>
    exceptFoldlM (fun children parent =>
      match parsePQN parent schemaNamespace with
      | none => Except.error (SchemaError.entityTypeParseError parent)
      | some parentTypeName =>
          match parseUnqualified p.1 schemaNamespace with
          | none => Except.error (SchemaError.entityTypeParseError p.1)
          | some child => Except.ok (addChild children parentTypeName child))
      children p.2.memberOfTypes)
    [] schemaFilesTypes

/-- Mirrors `ValidatorNamespaceDef::build_entity_types`. -/
def buildEntityTypes (schemaFilesTypes : List (String × EntityTypeFragment))
    (schemaNamespace : List String) : Except SchemaError EntityTypesDef := do
  let children ← buildEntityChildren schemaFilesTypes schemaNamespace
  let attributes ← exceptMapM (fun p => do
    match parseUnqualified p.1 schemaNamespace with
    | none => Except.error (SchemaError.entityTypeParseError p.1)
    | some name => do
        let attrs ← trySchemaTypeIntoValidatorType schemaNamespace p.2.shape
        Except.ok (name, attrs))
    schemaFilesTypes
  .ok ⟨attributes, children⟩

/-- The `member_of` inversion loop of `build_action_ids`. -/
def buildActionChildren (schemaFileActions : List (String × ActionTypeFragment))
    (schemaNamespace : List String) :
    Except SchemaError (List (EntityUID × List EntityUID)) :=
  exceptFoldlM (fun children p =>
    match p.2.memberOf with
    | none => Except.ok children
    | some parents =>
        exceptFoldlM (fun children parent => do
          let parentEuid ← parseActionIdWithNamespace parent schemaNamespace
          let childEuid ←
            parseActionIdWithNamespace (ActionEntityUID.defaultType p.1) schemaNamespace
          Except.ok (addChild children parentEuid childEuid))
          children parents)
    [] schemaFileActions

/-- Mirrors `ValidatorNamespaceDef::build_action_ids`. -/
def buildActionIds (schemaFileActions : List (String × ActionTypeFragment))
    (schemaNamespace : List String) : Except SchemaError ActionsDef := do
  let children ← buildActionChildren schemaFileActions schemaNamespace
  let contextAppliesTo ← exceptMapM (fun p => do
    let actionEuid ←
      parseActionIdWithNamespace (ActionEntityUID.defaultType p.1) schemaNamespace
    let (principalTypes, resourceTypes, context) :=
      match p.2.appliesTo with
      | some appliesTo => (appliesTo.principalTypes, appliesTo.resourceTypes, appliesTo.context)
      | none => (none, none, SchemaType.record .nil false)
    let principals ← parseApplySpecTypeList principalTypes schemaNamespace
    let resources ← parseApplySpecTypeList resourceTypes schemaNamespace
    let actionContext ← trySchemaTypeIntoValidatorType schemaNamespace context
    Except.ok (actionEuid, (actionContext, ValidatorApplySpec.mk principals resources)))
    schemaFileActions
  let attributes ← exceptMapM (fun p => do
    let actionEuid ←
      parseActionIdWithNamespace (ActionEntityUID.defaultType p.1) schemaNamespace
    let actionAttributes ←
      convertAttrJsonvalMapToAttributes (p.2.attributes.getD [])
    Except.ok (actionEuid, actionAttributes))
    schemaFileActions
  .ok ⟨contextAppliesTo, children, attributes⟩

/-- Mirrors `ValidatorNamespaceDef::from_namespace_definition`: duplicate
checks, namespace parsing, the action-behavior check, then conversion of
common types, actions and entity types. -/
def fromNamespaceDefinition (namespace' : Option String)
    (namespaceDef : NamespaceDefinition) (actionBehavior : ActionBehavior) :
    Except SchemaError ValidatorNamespaceDef := do
  match firstDuplicate (namespaceDef.entityTypes.map (fun p => p.1)) [] with
  | some name => Except.error (SchemaError.duplicateEntityType name)
  | none => Except.ok ()
  match firstDuplicate (namespaceDef.actions.map (fun p => p.1)) [] with
  | some name => Except.error (SchemaError.duplicateAction name)
  | none => Except.ok ()
  let schemaNamespace ←
    match namespace' with
    | some ns =>
        match parseNamespace ns with
        | some parsed => Except.ok parsed
        | none => Except.error (SchemaError.namespaceParseError ns)
    | none => Except.ok []
  checkActionBehavior namespaceDef actionBehavior
  let typeDefs ← buildTypeDefs namespaceDef.commonTypes schemaNamespace
  let actions ← buildActionIds namespaceDef.actions schemaNamespace
  let entityTypes ← buildEntityTypes namespaceDef.entityTypes schemaNamespace
  .ok ⟨(match schemaNamespace.getLast? with
        | some last => some ⟨schemaNamespace.dropLast, last⟩
        | none => none),
       typeDefs, entityTypes, actions⟩

/-! ## Validated schema structures -/

/-- Mirrors `ValidatorEntityType`. -/
structure ValidatorEntityType where
  name : Name
  descendants : List Name
  attributes : VAttrs
deriving DecidableEq, Repr

/-- Mirrors `ValidatorActionId`. -/
structure ValidatorActionId where
  name : EntityUID
  appliesTo : ValidatorApplySpec
  descendants : List EntityUID
  context : VAttrs
  attributes : VAttrs
deriving DecidableEq, Repr

/-- Mirrors `ValidatorSchema`. -/
structure ValidatorSchema where
  entityTypes : List (Name × ValidatorEntityType)
  actionIds : List (EntityUID × ValidatorActionId)
deriving DecidableEq, Repr

/-! ## Fragment merging -/

/-- The aggregate maps accumulated by `from_schema_fragments` over all
namespace definitions. -/
structure MergedFragments where
  typeDefs : List (Name × VType)
  entityAttributes : List (Name × Deferred VType)
  entityChildren : List (Name × List Name)
  actionContextAppliesTo : List (EntityUID × (Deferred VType × ValidatorApplySpec))
  actionChildren : List (EntityUID × List EntityUID)
  actionAttributes : List (EntityUID × VAttrs)

/-- Insert the entries of `adds` one by one, failing via `mkErr` on a key
already present (mirrors the `Entry::Occupied` duplicate checks). -/
def mergeDisjoint {κ α : Type} [DecidableEq κ] (mkErr : κ → SchemaError)
    (acc : List (κ × α)) (adds : List (κ × α)) :
    Except SchemaError (List (κ × α)) :=
  exceptFoldlM (fun acc p =>
    if containsKey acc p.1 then Except.error (mkErr p.1)
    else Except.ok (acc ++ [p]))
    acc adds

/-- Union-merge children maps (duplicate keys union their child sets). -/
def mergeChildren {κ : Type} [DecidableEq κ]
    (acc : List (κ × List κ)) (adds : List (κ × List κ)) : List (κ × List κ) :=
  adds.foldl (fun acc p =>
    p.2.foldl (fun acc child => addChild acc p.1 child) acc)
    acc

/-- The accumulation loop of `from_schema_fragments`: merge every namespace
definition's maps, rejecting duplicate common types, entity types and
actions, and union-merging the children maps. -/
def mergeFragments (defs : List ValidatorNamespaceDef) :
    Except SchemaError MergedFragments :=
  exceptFoldlM (fun m nsDef => do
    let typeDefs ← mergeDisjoint
      (fun n => SchemaError.duplicateCommonType (nameToString n))
      m.typeDefs nsDef.typeDefs
    let entityAttributes ← mergeDisjoint
      (fun n => SchemaError.duplicateEntityType (nameToString n))
      m.entityAttributes nsDef.entityTypes.attributes
    let actionContextAppliesTo ← mergeDisjoint
      (fun u => SchemaError.duplicateAction (uidToString u))
      m.actionContextAppliesTo nsDef.actions.contextAppliesTo
    let actionAttributes ← mergeDisjoint
      (fun u => SchemaError.duplicateAction (uidToString u))
      m.actionAttributes nsDef.actions.attributes
    let entityChildren := mergeChildren m.entityChildren nsDef.entityTypes.children
    let actionChildren := mergeChildren m.actionChildren nsDef.actions.children
    Except.ok ⟨typeDefs, entityAttributes, entityChildren,
               actionContextAppliesTo, actionChildren, actionAttributes⟩)
    ⟨[], [], [], [], [], []⟩ defs

/-- Mirrors `ValidatorSchema::record_attributes_or_error`. -/
def recordAttributesOrError : VType → Except SchemaError VAttrs
  | .record attrs => .ok attrs
  | _ => .error .contextOrShapeNotRecord

/-- Build the `ValidatorEntityType` map: each declared entity type takes its
direct children from the merged children map (consuming the entry) and its
resolved, record-shaped attributes.  Returns the residual (never consumed)
children entries, whose keys are parents referenced but not declared. -/
def buildValidatorEntityTypes (typeDefs : TypeDefs)
    (entityAttributes : List (Name × Deferred VType))
    (entityChildren : List (Name × List Name)) :
    Except SchemaError (List (Name × ValidatorEntityType) × List (Name × List Name)) := do
  let entityTypes ← exceptMapM (fun p => do
    let descendants := (lookupKey entityChildren p.1).getD []
    let resolved ← p.2 typeDefs
    let attrs ← recordAttributesOrError resolved
    Except.ok (p.1, ValidatorEntityType.mk p.1 descendants attrs)) entityAttributes
  let residual := entityChildren.filter (fun p => !(containsKey entityAttributes p.1))
  .ok (entityTypes, residual)

/-- Build the `ValidatorActionId` map, analogously to
`buildValidatorEntityTypes`; the action's attributes default to the empty
map when absent. -/
def buildValidatorActionIds (typeDefs : TypeDefs)
    (actionContextAppliesTo : List (EntityUID × (Deferred VType × ValidatorApplySpec)))
    (actionChildren : List (EntityUID × List EntityUID))
    (actionAttributes : List (EntityUID × VAttrs)) :
    Except SchemaError (List (EntityUID × ValidatorActionId) × List (EntityUID × List EntityUID)) := do
  let actionIds ← exceptMapM (fun p => do
    let descendants := (lookupKey actionChildren p.1).getD []
    let attributes := (lookupKey actionAttributes p.1).getD .nil
    let resolved ← p.2.1 typeDefs
    let context ← recordAttributesOrError resolved
    Except.ok (p.1, ValidatorActionId.mk p.1 p.2.2 descendants context attributes)) actionContextAppliesTo
  let residual := actionChildren.filter (fun p => !(containsKey actionContextAppliesTo p.1))
  .ok (actionIds, residual)

/-! ## Hierarchy closer

`compute_tc` lives in `cedar_policy_core::transitive_closure`, outside this
repository's sources.  Modelled from the spec (section 4.4): the descendants
field, initialized to direct children, is replaced by its transitive closure,
expanding only through keys present in the map; for actions the closer then
checks whether any node's closure contains the node itself and reports
`CycleInActionHierarchy`. -/

/-- The direct successors of `k`: its stored child set, empty for keys not in
the map. -/
def succs {κ : Type} [DecidableEq κ] (g : List (κ × List κ)) (k : κ) : List κ :=
  (lookupKey g k).getD []

/-- One closure round: add every member's direct successors to the set. -/
def tcStep {κ : Type} [DecidableEq κ] (g : List (κ × List κ)) (s : List κ) : List κ :=
  s.foldl (fun acc x => listUnion acc (succs g x)) s

/-- Iterate `tcStep` a fixed number of rounds. -/
def iterStep {κ : Type} [DecidableEq κ] (g : List (κ × List κ)) :
    Nat → List κ → List κ
  | 0, s => s
  | n + 1, s => iterStep g n (tcStep g s)

/-- Modelled from the spec: the transitive closure of the child graph at `k` -
every node reachable from `k` by one or more child edges.  `g.length` rounds
suffice because any reachable node is reachable by a path visiting each key
at most once. -/
def reachSet {κ : Type} [DecidableEq κ] (g : List (κ × List κ)) (k : κ) : List κ :=
  iterStep g g.length (succs g k)

/-- The child graph of the pre-closure entity-type map. -/
def entityGraph (m : List (Name × ValidatorEntityType)) : List (Name × List Name) :=
  m.map (fun p => (p.1, p.2.descendants))

/-- The child graph of the pre-closure action map. -/
def actionGraph (m : List (EntityUID × ValidatorActionId)) :
    List (EntityUID × List EntityUID) :=
  m.map (fun p => (p.1, p.2.descendants))

/-- Modelled from the spec: `compute_tc(&mut entity_types, false)` - close
every entity type's descendants; entity cycles are not diagnosed. -/
def closeEntityTypes (m : List (Name × ValidatorEntityType)) :
    List (Name × ValidatorEntityType) :=
  m.map (fun p => (p.1, { p.2 with descendants := reachSet (entityGraph m) p.1 }))

/-- The closed action map: every action's descendants replaced by their
transitive closure. -/
def closeActionMap (m : List (EntityUID × ValidatorActionId)) :
    List (EntityUID × ValidatorActionId) :=
  m.map (fun p => (p.1, { p.2 with descendants := reachSet (actionGraph m) p.1 }))

/-- Modelled from the spec: `compute_tc(&mut action_ids, true)` - close every
action's descendants, then report `CycleInActionHierarchy` when any node's
closure contains the node itself. -/
def closeActionIds (m : List (EntityUID × ValidatorActionId)) :
    Except SchemaError (List (EntityUID × ValidatorActionId)) :=
  if (closeActionMap m).any (fun p => p.1 ∈ p.2.descendants) then
    .error .cycleInActionHierarchy
  else
    .ok (closeActionMap m)

/-! ## Consistency checker -/

/-- Insert a string into a list-embedded set (`HashSet<String>::insert`). -/
def insertStr (s : String) (l : List String) : List String :=
  if s ∈ l then l else s :: l

mutual

/-- Mirrors `ValidatorSchema::check_undeclared_in_type`: walk a type,
inserting (the rendering of) every entity LUB member that is not a declared
entity type into the undeclared set. -/
def checkUndeclaredInType (entityTypes : List (Name × ValidatorEntityType)) :
    VType → List String → List String
  | .entityLUB lub, undeclaredTypes =>
      lub.foldl (fun acc name =>
        if containsKey entityTypes name then acc
        else insertStr (nameToString name) acc)
        undeclaredTypes
  | .record attrs, undeclaredTypes =>
      checkUndeclaredInAttrs entityTypes attrs undeclaredTypes
  | .setOf elementType, undeclaredTypes =>
      checkUndeclaredInType entityTypes elementType undeclaredTypes
  | _, undeclaredTypes => undeclaredTypes

/-- The record case of `check_undeclared_in_type`: check every attribute
type. -/
def checkUndeclaredInAttrs (entityTypes : List (Name × ValidatorEntityType)) :
    VAttrs → List String → List String
  | .nil, undeclaredTypes => undeclaredTypes
  | .cons _ ty _ rest, undeclaredTypes =>
      checkUndeclaredInAttrs entityTypes rest
        (checkUndeclaredInType entityTypes ty undeclaredTypes)

end

/-- One apply-spec entry of the `check_for_undeclared` action loop: a
`Concrete` entry not among the declared entity types is added to the
undeclared set; `Unspecified` is skipped. -/
def applyFoldStep (entityTypes : List (Name × ValidatorEntityType))
    (acc : List String) : EntityType → List String
  | .concrete name =>
      if containsKey entityTypes name then acc
      else insertStr (nameToString name) acc
  | .unspecified => acc

/-- One action of the `check_for_undeclared` action loop: its context
attribute types, then its applicable principal types, then its applicable
resource types. -/
def actionFoldStep (entityTypes : List (Name × ValidatorEntityType))
    (acc : List String) (p : EntityUID × ValidatorActionId) : List String :=
  p.2.appliesTo.resourceApplySpec.foldl (applyFoldStep entityTypes)
    (p.2.appliesTo.principalApplySpec.foldl (applyFoldStep entityTypes)
      (checkUndeclaredInAttrs entityTypes p.2.context acc))

/-- The undeclared-entity-type set accumulated by `check_for_undeclared`:
residual `memberOfTypes` parents, entity references in every declared entity
type's attributes, in every action's context, and concrete entries of every
action's apply specs. -/
def undeclaredEntitySet (entityTypes : List (Name × ValidatorEntityType))
    (undeclaredParentEntities : List Name)
    (actionIds : List (EntityUID × ValidatorActionId)) : List String :=
  let undeclaredE := undeclaredParentEntities.foldl
    (fun acc n => insertStr (nameToString n) acc) []
  let undeclaredE := entityTypes.foldl
    (fun acc p => checkUndeclaredInAttrs entityTypes p.2.attributes acc) undeclaredE
  actionIds.foldl (actionFoldStep entityTypes) undeclaredE

/-- The undeclared-action set: residual action `memberOf` parents. -/
def undeclaredActionSet (undeclaredParentActions : List EntityUID) : List String :=
  undeclaredParentActions.foldl (fun acc u => insertStr (uidToString u) acc) []

/-- Mirrors `ValidatorSchema::check_for_undeclared`: accumulate every
undeclared entity type and undeclared action over the whole schema, then
report all undeclared entity types in one error, else all undeclared actions
in one error. -/
def checkForUndeclared (entityTypes : List (Name × ValidatorEntityType))
    (undeclaredParentEntities : List Name)
    (actionIds : List (EntityUID × ValidatorActionId))
    (undeclaredParentActions : List EntityUID) : Except SchemaError Unit :=
  let undeclaredE := undeclaredEntitySet entityTypes undeclaredParentEntities actionIds
  let undeclaredA := undeclaredActionSet undeclaredParentActions
  if undeclaredE ≠ [] then
    .error (.undeclaredEntityTypes undeclaredE)
  else if undeclaredA ≠ [] then
    .error (.undeclaredActions undeclaredA)
  else
    .ok ()

/-! ## Top-level assembly -/

/-- The state of `from_schema_fragments` just before the hierarchy closer
runs: both pre-closure maps and the residual children maps. -/
structure PreTC where
  entityTypesPre : List (Name × ValidatorEntityType)
  residualEntityChildren : List (Name × List Name)
  actionIdsPre : List (EntityUID × ValidatorActionId)
  residualActionChildren : List (EntityUID × List EntityUID)
deriving DecidableEq, Repr

/-- The merging and construction phases of
`ValidatorSchema::from_schema_fragments`, up to (not including) the
transitive-closure computation. -/
def assembleFragments (fragments : List (List ValidatorNamespaceDef)) :
    Except SchemaError PreTC := do
  let merged ← mergeFragments fragments.flatten
  let (entityTypesPre, residualEntityChildren) ←
    buildValidatorEntityTypes merged.typeDefs merged.entityAttributes merged.entityChildren
  let (actionIdsPre, residualActionChildren) ←
    buildValidatorActionIds merged.typeDefs merged.actionContextAppliesTo
      merged.actionChildren merged.actionAttributes
  .ok ⟨entityTypesPre, residualEntityChildren, actionIdsPre, residualActionChildren⟩

/-- Mirrors `ValidatorSchema::from_schema_fragments`: assemble the fragments,
close both hierarchies (only the action closure checks for cycles), then
check for undeclared entity types and actions. -/
def fromSchemaFragments (fragments : List (List ValidatorNamespaceDef)) :
    Except SchemaError ValidatorSchema := do
  let pre ← assembleFragments fragments
  let entityTypes := closeEntityTypes pre.entityTypesPre
  let actionIds ← closeActionIds pre.actionIdsPre
  checkForUndeclared entityTypes (pre.residualEntityChildren.map (fun p => p.1))
    actionIds (pre.residualActionChildren.map (fun p => p.1))
  .ok ⟨entityTypes, actionIds⟩

/-- Mirrors `ValidatorSchemaFragment::from_schema_fragment`: compile every
namespace of a raw fragment. -/
def fromSchemaFragment (fragment : List (String × NamespaceDefinition))
    (actionBehavior : ActionBehavior) :
    Except SchemaError (List ValidatorNamespaceDef) :=
  exceptMapM (fun p => fromNamespaceDefinition (some p.1) p.2 actionBehavior) fragment

/-- Mirrors `TryInto<ValidatorSchema> for NamespaceDefinition`: compile a
single namespace definition (no namespace string, default behavior) into a
complete schema. -/
def namespaceDefinitionToSchema (nsDef : NamespaceDefinition) :
    Except SchemaError ValidatorSchema := do
  let d ← fromNamespaceDefinition none nsDef .prohibitAttributes
  fromSchemaFragments [[d]]

/-! ## Decidable equality of results -/

instance {ε α : Type} [DecidableEq ε] [DecidableEq α] : DecidableEq (Except ε α) := fun x y =>
  match x, y with
  | .ok x, .ok y =>
      if h : x = y then .isTrue (by rw [h])
      else .isFalse (by intro hc; cases hc; exact h rfl)
  | .error x, .error y =>
      if h : x = y then .isTrue (by rw [h])
      else .isFalse (by intro hc; cases hc; exact h rfl)
  | .ok _, .error _ => .isFalse (by intro hc; cases hc)
  | .error _, .ok _ => .isFalse (by intro hc; cases hc)

/-! ## Basic lemmas about list-embedded sets -/

theorem mem_insertElem {α : Type} [DecidableEq α] {y x : α} {l : List α} :
    y ∈ insertElem x l ↔ y = x ∨ y ∈ l := by
  unfold insertElem
  split
  · constructor
    · exact fun h => Or.inr h
    · rintro (rfl | h) <;> assumption
  · simp [or_comm]

theorem mem_listUnion {α : Type} [DecidableEq α] {y : α} {l₁ l₂ : List α} :
    y ∈ listUnion l₁ l₂ ↔ y ∈ l₁ ∨ y ∈ l₂ := by
  unfold listUnion
  induction l₂ generalizing l₁ with
  | nil => simp
  | cons x t ih =>
      simp only [List.foldl_cons, ih, mem_insertElem, List.mem_cons]
      tauto

theorem mem_insertStr {y x : String} {l : List String} :
    y ∈ insertStr x l ↔ y = x ∨ y ∈ l := by
  unfold insertStr
  split
  · constructor
    · exact fun h => Or.inr h
    · rintro (rfl | h) <;> assumption
  · simp [or_comm]

/-- Membership characterization of the union-accumulating fold used by
`tcStep`. -/
theorem mem_foldl_listUnion {α β : Type} [DecidableEq α] {y : α}
    (f : β → List α) (l : List β) (init : List α) :
    y ∈ l.foldl (fun acc x => listUnion acc (f x)) init ↔
      y ∈ init ∨ ∃ x ∈ l, y ∈ f x := by
  induction l generalizing init with
  | nil => simp
  | cons b t ih =>
      simp only [List.foldl_cons, ih, mem_listUnion, List.mem_cons]
      constructor
      · rintro ((h | h) | ⟨x, hx, hy⟩)
        · exact Or.inl h
        · exact Or.inr ⟨b, Or.inl rfl, h⟩
        · exact Or.inr ⟨x, Or.inr hx, hy⟩
      · rintro (h | ⟨x, (rfl | hx), hy⟩)
        · exact Or.inl (Or.inl h)
        · exact Or.inl (Or.inr hy)
        · exact Or.inr ⟨x, hx, hy⟩

/-! ## Reachability in the child graphs -/

/-- An edge path: `pathTo g a l b` when the successive child edges
`a → l₀ → l₁ → ⋯ → b` all exist in `g`. -/
def pathTo {κ : Type} [DecidableEq κ] (g : List (κ × List κ)) : κ → List κ → κ → Prop
  | a, [], b => b ∈ succs g a
  | a, c :: l, b => c ∈ succs g a ∧ pathTo g c l b

/-- `b` is reachable from `a` by one or more child edges. -/
def Reach {κ : Type} [DecidableEq κ] (g : List (κ × List κ)) (a b : κ) : Prop :=
  ∃ l, pathTo g a l b

theorem pathTo_append {κ : Type} [DecidableEq κ] {g : List (κ × List κ)}
    {a b c : κ} {l : List κ} (h : pathTo g a l b) (hc : c ∈ succs g b) :
    pathTo g a (l ++ [b]) c := by
  induction l generalizing a with
  | nil => exact ⟨h, hc⟩
  | cons x t ih => exact ⟨h.1, ih h.2⟩

theorem pathTo_split {κ : Type} [DecidableEq κ] {g : List (κ × List κ)}
    {a b c : κ} {u v : List κ} (h : pathTo g a (u ++ c :: v) b) :
    pathTo g a u c ∧ pathTo g c v b := by
  induction u generalizing a with
  | nil => exact ⟨h.1, h.2⟩
  | cons x t ih =>
      obtain ⟨hx, hrest⟩ := h
      obtain ⟨h₁, h₂⟩ := ih hrest
      exact ⟨⟨hx, h₁⟩, h₂⟩

theorem pathTo_join {κ : Type} [DecidableEq κ] {g : List (κ × List κ)}
    {a b c : κ} {l₁ l₂ : List κ} (h₁ : pathTo g a l₁ c) (h₂ : pathTo g c l₂ b) :
    pathTo g a (l₁ ++ c :: l₂) b := by
  induction l₁ generalizing a with
  | nil => exact ⟨h₁, h₂⟩
  | cons x t ih => exact ⟨h₁.1, ih h₁.2⟩

theorem mem_tcStep {κ : Type} [DecidableEq κ] {g : List (κ × List κ)}
    {y : κ} {s : List κ} :
    y ∈ tcStep g s ↔ y ∈ s ∨ ∃ x ∈ s, y ∈ succs g x := by
  unfold tcStep
  exact mem_foldl_listUnion (succs g) s s

theorem subset_tcStep {κ : Type} [DecidableEq κ] {g : List (κ × List κ)}
    {s : List κ} : s ⊆ tcStep g s :=
  fun _ h => mem_tcStep.mpr (Or.inl h)

theorem tcStep_mono {κ : Type} [DecidableEq κ] {g : List (κ × List κ)}
    {s t : List κ} (h : s ⊆ t) : tcStep g s ⊆ tcStep g t := by
  intro y hy
  rcases mem_tcStep.mp hy with hm | ⟨x, hx, hsx⟩
  · exact mem_tcStep.mpr (Or.inl (h hm))
  · exact mem_tcStep.mpr (Or.inr ⟨x, h hx, hsx⟩)

theorem subset_iterStep {κ : Type} [DecidableEq κ] {g : List (κ × List κ)}
    (n : Nat) (s : List κ) : s ⊆ iterStep g n s := by
  induction n generalizing s with
  | zero => exact fun _ h => h
  | succ m ih => exact fun y hy => ih (tcStep g s) (subset_tcStep hy)

theorem iterStep_mono {κ : Type} [DecidableEq κ] {g : List (κ × List κ)}
    {n : Nat} {s t : List κ} (h : s ⊆ t) : iterStep g n s ⊆ iterStep g n t := by
  induction n generalizing s t with
  | zero => exact h
  | succ m ih => exact ih (tcStep_mono h)

/-- Soundness of the iterated closure: everything computed is reachable. -/
theorem iterStep_sound {κ : Type} [DecidableEq κ] {g : List (κ × List κ)}
    {a : κ} (n : Nat) (s : List κ) (hs : ∀ y ∈ s, Reach g a y) :
    ∀ x ∈ iterStep g n s, Reach g a x := by
  induction n generalizing s with
  | zero => exact hs
  | succ m ih =>
      refine ih (tcStep g s) ?_
      intro y hy
      rcases mem_tcStep.mp hy with hm | ⟨x, hx, hsx⟩
      · exact hs y hm
      · obtain ⟨l, hl⟩ := hs x hx
        exact ⟨l ++ [x], pathTo_append hl hsx⟩

/-- Completeness of the iterated closure for paths of bounded length. -/
theorem iterStep_complete {κ : Type} [DecidableEq κ] {g : List (κ × List κ)}
    {a b : κ} {l : List κ} (h : pathTo g a l b) :
    ∀ n, l.length ≤ n → b ∈ iterStep g n (succs g a) := by
  induction l generalizing a with
  | nil =>
      intro n _
      exact subset_iterStep n (succs g a) h
  | cons c t ih =>
      intro n hn
      match n, hn with
      | m + 1, hn =>
          have hb : b ∈ iterStep g m (succs g c) := ih h.2 m (Nat.le_of_succ_le_succ hn)
          have hsub : succs g c ⊆ tcStep g (succs g a) := by
            intro y hy
            exact mem_tcStep.mpr (Or.inr ⟨c, h.1, hy⟩)
          exact iterStep_mono hsub hb

/-- A node with an outgoing edge is a key of the graph. -/
theorem succs_key {κ : Type} [DecidableEq κ] {g : List (κ × List κ)}
    {x y : κ} (h : y ∈ succs g x) : x ∈ g.map Prod.fst := by
  unfold succs lookupKey at h
  cases hf : g.find? (fun p => p.1 = x) with
  | none => rw [hf] at h; simp at h
  | some p =>
      have hp := List.find?_some hf
      have hm := List.mem_of_find?_eq_some hf
      simp only [decide_eq_true_eq] at hp
      exact hp ▸ List.mem_map_of_mem Prod.fst hm

/-- Every node along a path has an outgoing edge, hence is a key. -/
theorem pathTo_keys {κ : Type} [DecidableEq κ] {g : List (κ × List κ)}
    {a b : κ} {l : List κ} (h : pathTo g a l b) :
    ∀ x ∈ a :: l, x ∈ g.map Prod.fst := by
  induction l generalizing a with
  | nil =>
      intro x hx
      rcases List.mem_singleton.mp hx with rfl
      exact succs_key h
  | cons c t ih =>
      intro x hx
      rcases List.mem_cons.mp hx with rfl | hx
      · exact succs_key h.1
      · exact ih h.2 x hx

/-- A list that is not `Nodup` contains a repeated element in decomposed
position. -/
theorem not_nodup_decomp {α : Type} [DecidableEq α] {l : List α}
    (h : ¬ l.Nodup) : ∃ x l₁ l₂ l₃, l = l₁ ++ x :: l₂ ++ x :: l₃ := by
  induction l with
  | nil => exact absurd List.nodup_nil h
  | cons y t ih =>
      by_cases hy : y ∈ t
      · obtain ⟨s, u, rfl⟩ := List.append_of_mem hy
        exact ⟨y, [], s, u, rfl⟩
      · have ht : ¬ t.Nodup := by
          intro hn
          exact h (List.nodup_cons.mpr ⟨hy, hn⟩)
        obtain ⟨x, l₁, l₂, l₃, rfl⟩ := ih ht
        exact ⟨x, y :: l₁, l₂, l₃, rfl⟩

/-- Any cycle through `a` can be shortened to one visiting no node twice. -/
theorem cycle_shorten {κ : Type} [DecidableEq κ] {g : List (κ × List κ)}
    {a : κ} (l : List κ) (h : pathTo g a l a) :
    ∃ l', pathTo g a l' a ∧ (a :: l').Nodup := by
  by_cases hn : (a :: l).Nodup
  · exact ⟨l, h, hn⟩
  · obtain ⟨x, l₁, l₂, l₃, hdec⟩ := not_nodup_decomp hn
    cases l₁ with
    | nil =>
        simp only [List.nil_append, List.cons_append, List.append_assoc,
          List.cons.injEq] at hdec
        obtain ⟨hax, hl⟩ := hdec
        have h₂ : pathTo g a l₂ a := by
          have hs := (pathTo_split (u := l₂) (c := x) (v := l₃) (hl ▸ h)).1
          rwa [← hax] at hs
        have hlt : l₂.length < l.length := by
          rw [hl]
          simp only [List.length_append, List.length_cons]
          omega
        exact cycle_shorten l₂ h₂
    | cons y l₁ =>
        simp only [List.nil_append, List.cons_append, List.append_assoc,
          List.cons.injEq] at hdec
        obtain ⟨hay, hl⟩ := hdec
        have h' : pathTo g a (l₁ ++ x :: (l₂ ++ x :: l₃)) a := hl ▸ h
        have hsplit₁ := pathTo_split h'
        have hsplit₂ := pathTo_split (u := l₂) (c := x) (v := l₃) hsplit₁.2
        have hjoin := pathTo_join hsplit₁.1 hsplit₂.2
        have hlt : (l₁ ++ x :: l₃).length < l.length := by
          rw [hl]
          simp only [List.length_append, List.length_cons]
          omega
        exact cycle_shorten (l₁ ++ x :: l₃) hjoin
termination_by l.length
decreasing_by
  · exact hlt
  · exact hlt

/-- Completeness of cycle detection: a cycle through `a` puts `a` into its
own computed closure. -/
theorem reachSet_self_of_cycle {κ : Type} [DecidableEq κ] {g : List (κ × List κ)}
    {a : κ} {l : List κ} (h : pathTo g a l a) : a ∈ reachSet g a := by
  obtain ⟨l', hp, hnd⟩ := cycle_shorten l h
  have hkeys : ∀ x ∈ a :: l', x ∈ g.map Prod.fst := pathTo_keys hp
  have hsub : List.Subperm (a :: l') (g.map Prod.fst) :=
    List.subperm_of_subset hnd (fun x hx => hkeys x hx)
  have hlen : l'.length + 1 ≤ g.length := by
    have := hsub.length_le
    simpa using this
  exact iterStep_complete hp g.length (by omega)

/-- Soundness of the closure: every member of `reachSet g a` is reachable
from `a`. -/
theorem reachSet_sound {κ : Type} [DecidableEq κ] {g : List (κ × List κ)}
    {a b : κ} (h : b ∈ reachSet g a) : Reach g a b := by
  refine iterStep_sound g.length (succs g a) ?_ b h
  intro y hy
  exact ⟨[], hy⟩

/-! ## Lemmas about the hierarchy closer -/

theorem mem_closeActionMap {m : List (EntityUID × ValidatorActionId)}
    {q : EntityUID × ValidatorActionId} (h : q ∈ closeActionMap m) :
    q.2.descendants = reachSet (actionGraph m) q.1 := by
  unfold closeActionMap at h
  obtain ⟨p, hpm, hpq⟩ := List.mem_map.mp h
  rw [← hpq]

theorem closeActionIds_error_of_cycle {m : List (EntityUID × ValidatorActionId)}
    {a : EntityUID} (h : Reach (actionGraph m) a a) :
    closeActionIds m = .error .cycleInActionHierarchy := by
  obtain ⟨l, hp⟩ := h
  have hself : a ∈ reachSet (actionGraph m) a := reachSet_self_of_cycle hp
  have hkey : a ∈ (actionGraph m).map Prod.fst := pathTo_keys hp a (List.mem_cons_self a l)
  have hkey' : ∃ p ∈ m, p.1 = a := by
    simp only [actionGraph, List.map_map, List.mem_map] at hkey
    obtain ⟨p, hp', he⟩ := hkey
    exact ⟨p, hp', he⟩
  obtain ⟨p, hpm, hpa⟩ := hkey'
  unfold closeActionIds
  rw [if_pos]
  rw [List.any_eq_true]
  refine ⟨(p.1, { p.2 with descendants := reachSet (actionGraph m) p.1 }), ?_, ?_⟩
  · exact List.mem_map_of_mem _ hpm
  · simp only [hpa]
    exact decide_eq_true hself

theorem closeActionIds_ok_no_self {m closed : List (EntityUID × ValidatorActionId)}
    (h : closeActionIds m = .ok closed) :
    ∀ p ∈ closed, p.1 ∉ p.2.descendants := by
  unfold closeActionIds at h
  split at h
  · exact absurd h (by simp)
  · next hany =>
      cases h
      intro p hp hmem
      rw [List.any_eq_true] at hany
      exact hany ⟨p, hp, decide_eq_true hmem⟩

theorem closeActionIds_ok_of_no_cycle {m : List (EntityUID × ValidatorActionId)}
    (h : ∀ a, ¬ Reach (actionGraph m) a a) :
    closeActionIds m = .ok (closeActionMap m) := by
  unfold closeActionIds
  rw [if_neg]
  intro hany
  rw [List.any_eq_true] at hany
  obtain ⟨q, hq, hmem⟩ := hany
  have hself : q.1 ∈ q.2.descendants := of_decide_eq_true hmem
  rw [mem_closeActionMap hq] at hself
  exact h q.1 (reachSet_sound hself)

theorem mem_closeEntityTypes {m : List (Name × ValidatorEntityType)}
    {q : Name × ValidatorEntityType} (h : q ∈ closeEntityTypes m) :
    q.2.descendants = reachSet (entityGraph m) q.1 := by
  unfold closeEntityTypes at h
  obtain ⟨p, hpm, hpq⟩ := List.mem_map.mp h
  rw [← hpq]

/-- The closed entity map records self-membership exactly for entity types on
a cycle of the pre-closure child graph. -/
theorem closeEntityTypes_self_iff {m : List (Name × ValidatorEntityType)}
    {q : Name × ValidatorEntityType} (h : q ∈ closeEntityTypes m) :
    q.1 ∈ q.2.descendants ↔ Reach (entityGraph m) q.1 q.1 := by
  rw [mem_closeEntityTypes h]
  constructor
  · exact reachSet_sound
  · rintro ⟨l, hp⟩
    exact reachSet_self_of_cycle hp

/-! ## Name collectors for the consistency checker -/

mutual

/-- The entity-type names occurring in a validator type: LUB members,
recursively through records and set elements (the same positions
`check_undeclared_in_type` inspects). -/
def namesInType : VType → List Name
  | .entityLUB lub => lub
  | .record attrs => namesInAttrs attrs
  | .setOf elementType => namesInType elementType
  | _ => []

/-- The entity-type names occurring in an attribute map. -/
def namesInAttrs : VAttrs → List Name
  | .nil => []
  | .cons _ ty _ rest => namesInType ty ++ namesInAttrs rest

end

/-! ## Generic fold-accumulation lemmas -/

theorem foldl_preserve {γ : Type} (step : List String → γ → List String)
    (hstep : ∀ acc x, ∀ y ∈ acc, y ∈ step acc x) (l : List γ) :
    ∀ acc, ∀ y ∈ acc, y ∈ l.foldl step acc := by
  induction l with
  | nil => exact fun acc y hy => hy
  | cons x t ih =>
      intro acc y hy
      exact ih (step acc x) y (hstep acc x y hy)

theorem foldl_mem_of_elem {γ : Type} (step : List String → γ → List String)
    (hstep : ∀ acc x, ∀ y ∈ acc, y ∈ step acc x)
    {x : γ} {l : List γ} (hx : x ∈ l) {y : String}
    (hy : ∀ acc, y ∈ step acc x) :
    ∀ acc, y ∈ l.foldl step acc := by
  induction l with
  | nil => exact absurd hx (List.not_mem_nil x)
  | cons z t ih =>
      intro acc
      rcases List.mem_cons.mp hx with rfl | hx'
      · exact foldl_preserve step hstep t (step acc x) y (hy acc)
      · exact ih hx' (step acc z)

/-! ## Monotonicity and completeness of `check_undeclared_in_type` -/

mutual

theorem checkType_mono (ets : List (Name × ValidatorEntityType)) :
    (t : VType) → (acc : List String) → ∀ y ∈ acc, y ∈ checkUndeclaredInType ets t acc
  | .primBool, _, _, hy => hy
  | .primLong, _, _, hy => hy
  | .primString, _, _, hy => hy
  | .setNone, _, _, hy => hy
  | .ext _, _, _, hy => hy
  | .setOf elementType, acc, y, hy => checkType_mono ets elementType acc y hy
  | .record attrs, acc, y, hy => checkAttrs_mono ets attrs acc y hy
  | .entityLUB lub, acc, y, hy => by
      unfold checkUndeclaredInType
      refine foldl_preserve _ ?_ lub acc y hy
      intro acc' n y' hy'
      dsimp only
      split
      · exact hy'
      · exact mem_insertStr.mpr (Or.inr hy')

theorem checkAttrs_mono (ets : List (Name × ValidatorEntityType)) :
    (attrs : VAttrs) → (acc : List String) → ∀ y ∈ acc, y ∈ checkUndeclaredInAttrs ets attrs acc
  | .nil, _, _, hy => hy
  | .cons _ ty _ rest, acc, y, hy =>
      checkAttrs_mono ets rest (checkUndeclaredInType ets ty acc) y
        (checkType_mono ets ty acc y hy)

end

/-- For the `entityLUB` case: an undeclared LUB member is inserted by the
fold and survives it. -/
theorem lub_fold_collects {ets : List (Name × ValidatorEntityType)}
    {q : Name} {lub : List Name} (hq : q ∈ lub)
    (hundecl : containsKey ets q = false) (acc : List String) :
    nameToString q ∈ lub.foldl (fun acc name =>
      if containsKey ets name then acc else insertStr (nameToString name) acc) acc := by
  refine foldl_mem_of_elem _ ?_ hq ?_ acc
  · intro acc' x y hy
    dsimp only
    split
    · exact hy
    · exact mem_insertStr.mpr (Or.inr hy)
  · intro acc'
    dsimp only
    rw [hundecl]
    simp only [Bool.false_eq_true, if_false]
    exact mem_insertStr.mpr (Or.inl rfl)

mutual

theorem checkType_collects (ets : List (Name × ValidatorEntityType)) :
    (t : VType) → (acc : List String) → ∀ q ∈ namesInType t,
      containsKey ets q = false → nameToString q ∈ checkUndeclaredInType ets t acc
  | .entityLUB lub, acc, q, hq, hundecl => by
      unfold checkUndeclaredInType
      exact lub_fold_collects hq hundecl acc
  | .record attrs, acc, q, hq, hundecl =>
      checkAttrs_collects ets attrs acc q hq hundecl
  | .setOf elementType, acc, q, hq, hundecl =>
      checkType_collects ets elementType acc q hq hundecl

theorem checkAttrs_collects (ets : List (Name × ValidatorEntityType)) :
    (attrs : VAttrs) → (acc : List String) → ∀ q ∈ namesInAttrs attrs,
      containsKey ets q = false → nameToString q ∈ checkUndeclaredInAttrs ets attrs acc
  | .cons _ ty _ rest, acc, q, hq, hundecl => by
      unfold checkUndeclaredInAttrs
      rcases List.mem_append.mp hq with hty | hrest
      · exact checkAttrs_mono ets rest _ _
          (checkType_collects ets ty acc q hty hundecl)
      · exact checkAttrs_collects ets rest _ q hrest hundecl

end

/-! ## Accumulation lemmas for `check_for_undeclared` -/

theorem applyFoldStep_mono {ets : List (Name × ValidatorEntityType)}
    {acc : List String} {pe : EntityType} {y : String} (hy : y ∈ acc) :
    y ∈ applyFoldStep ets acc pe := by
  unfold applyFoldStep
  match pe with
  | .unspecified => exact hy
  | .concrete name =>
      dsimp only
      split
      · exact hy
      · exact mem_insertStr.mpr (Or.inr hy)

theorem applyFold_collects {ets : List (Name × ValidatorEntityType)}
    {q : Name} {l : List EntityType} (hq : EntityType.concrete q ∈ l)
    (hundecl : containsKey ets q = false) (acc : List String) :
    nameToString q ∈ l.foldl (applyFoldStep ets) acc := by
  refine foldl_mem_of_elem _ (fun acc' x y hy => applyFoldStep_mono hy) hq ?_ acc
  intro acc'
  unfold applyFoldStep
  dsimp only
  rw [hundecl]
  simp only [Bool.false_eq_true, if_false]
  exact mem_insertStr.mpr (Or.inl rfl)

theorem actionFoldStep_mono {ets : List (Name × ValidatorEntityType)}
    {acc : List String} {p : EntityUID × ValidatorActionId} {y : String}
    (hy : y ∈ acc) : y ∈ actionFoldStep ets acc p := by
  unfold actionFoldStep
  refine foldl_preserve _ (fun acc' x y' hy' => applyFoldStep_mono hy') _ _ y ?_
  refine foldl_preserve _ (fun acc' x y' hy' => applyFoldStep_mono hy') _ _ y ?_
  exact checkAttrs_mono ets _ acc y hy

/-- An undeclared entity reference in a declared entity type's attributes
lands in the undeclared set. -/
theorem undeclaredEntitySet_collects_attr
    {ets : List (Name × ValidatorEntityType)} {resid : List Name}
    {acts : List (EntityUID × ValidatorActionId)}
    {p : Name × ValidatorEntityType} {q : Name}
    (hp : p ∈ ets) (hq : q ∈ namesInAttrs p.2.attributes)
    (hundecl : containsKey ets q = false) :
    nameToString q ∈ undeclaredEntitySet ets resid acts := by
  unfold undeclaredEntitySet
  refine foldl_preserve _ (fun acc x y hy => actionFoldStep_mono hy) acts _ _ ?_
  refine foldl_mem_of_elem _ (fun acc x y hy => checkAttrs_mono ets _ acc y hy) hp ?_ _
  intro acc
  exact checkAttrs_collects ets _ acc q hq hundecl

/-- An undeclared entity reference in an action's context lands in the
undeclared set. -/
theorem undeclaredEntitySet_collects_context
    {ets : List (Name × ValidatorEntityType)} {resid : List Name}
    {acts : List (EntityUID × ValidatorActionId)}
    {p : EntityUID × ValidatorActionId} {q : Name}
    (hp : p ∈ acts) (hq : q ∈ namesInAttrs p.2.context)
    (hundecl : containsKey ets q = false) :
    nameToString q ∈ undeclaredEntitySet ets resid acts := by
  unfold undeclaredEntitySet
  refine foldl_mem_of_elem _ (fun acc x y hy => actionFoldStep_mono hy) hp ?_ _
  intro acc
  unfold actionFoldStep
  refine foldl_preserve _ (fun acc' x y' hy' => applyFoldStep_mono hy') _ _ _ ?_
  refine foldl_preserve _ (fun acc' x y' hy' => applyFoldStep_mono hy') _ _ _ ?_
  exact checkAttrs_collects ets _ acc q hq hundecl

/-- An undeclared concrete principal type of an action lands in the
undeclared set. -/
theorem undeclaredEntitySet_collects_principal
    {ets : List (Name × ValidatorEntityType)} {resid : List Name}
    {acts : List (EntityUID × ValidatorActionId)}
    {p : EntityUID × ValidatorActionId} {q : Name}
    (hp : p ∈ acts) (hq : EntityType.concrete q ∈ p.2.appliesTo.principalApplySpec)
    (hundecl : containsKey ets q = false) :
    nameToString q ∈ undeclaredEntitySet ets resid acts := by
  unfold undeclaredEntitySet
  refine foldl_mem_of_elem _ (fun acc x y hy => actionFoldStep_mono hy) hp ?_ _
  intro acc
  unfold actionFoldStep
  refine foldl_preserve _ (fun acc' x y' hy' => applyFoldStep_mono hy') _ _ _ ?_
  exact applyFold_collects hq hundecl _

/-- An undeclared concrete resource type of an action lands in the
undeclared set. -/
theorem undeclaredEntitySet_collects_resource
    {ets : List (Name × ValidatorEntityType)} {resid : List Name}
    {acts : List (EntityUID × ValidatorActionId)}
    {p : EntityUID × ValidatorActionId} {q : Name}
    (hp : p ∈ acts) (hq : EntityType.concrete q ∈ p.2.appliesTo.resourceApplySpec)
    (hundecl : containsKey ets q = false) :
    nameToString q ∈ undeclaredEntitySet ets resid acts := by
  unfold undeclaredEntitySet
  refine foldl_mem_of_elem _ (fun acc x y hy => actionFoldStep_mono hy) hp ?_ _
  intro acc
  unfold actionFoldStep
  exact applyFold_collects hq hundecl _

/-- Success of the consistency checker means both accumulated sets are
empty. -/
theorem checkForUndeclared_ok_inv
    {ets : List (Name × ValidatorEntityType)} {re : List Name}
    {acts : List (EntityUID × ValidatorActionId)} {ra : List EntityUID}
    (h : checkForUndeclared ets re acts ra = .ok ()) :
    undeclaredEntitySet ets re acts = [] ∧ undeclaredActionSet ra = [] := by
  unfold checkForUndeclared at h
  dsimp only at h
  split at h
  · exact absurd h (by simp)
  · next he =>
      split at h
      · exact absurd h (by simp)
      · next ha =>
          rw [not_not] at he ha
          exact ⟨he, ha⟩

/-! ## Inversion of the top-level pipeline -/

/-- Inversion of a successful `Except` bind. -/
theorem except_bind_ok {ε α β : Type} {x : Except ε α} {f : α → Except ε β} {b : β}
    (h : (x >>= f) = .ok b) : ∃ a, x = .ok a ∧ f a = .ok b := by
  cases x with
  | error e =>
      rw [show (Except.error e >>= f : Except ε β) = Except.error e from rfl] at h
      exact Except.noConfusion h
  | ok a =>
      rw [show (Except.ok a >>= f : Except ε β) = f a from rfl] at h
      exact ⟨a, rfl, h⟩

theorem fromSchemaFragments_ok_inv {fragments : List (List ValidatorNamespaceDef)}
    {S : ValidatorSchema} (h : fromSchemaFragments fragments = .ok S) :
    ∃ pre, assembleFragments fragments = .ok pre ∧
      S.entityTypes = closeEntityTypes pre.entityTypesPre ∧
      closeActionIds pre.actionIdsPre = .ok S.actionIds ∧
      checkForUndeclared S.entityTypes (pre.residualEntityChildren.map (fun p => p.1))
        S.actionIds (pre.residualActionChildren.map (fun p => p.1)) = .ok () := by
  unfold fromSchemaFragments at h
  obtain ⟨pre, hassem, h⟩ := except_bind_ok h
  obtain ⟨acts, hclose, h⟩ := except_bind_ok h
  obtain ⟨u, hcheck, h⟩ := except_bind_ok h
  cases u
  have hS : S = ⟨closeEntityTypes pre.entityTypesPre, acts⟩ := by
    cases h
    rfl
  refine ⟨pre, hassem, ?_, ?_, ?_⟩
  · rw [hS]
  · rw [hS]; exact hclose
  · rw [hS]; exact hcheck

/-! ## Concrete example schemas -/

/-- The empty record shape (the parser's default for an omitted `shape`). -/
def emptyShape : SchemaType := .record .nil false

/-- A namespace whose entity-membership graph is a two-cycle:
`A memberOf B` and `B memberOf A`. -/
def cycEntDef : NamespaceDefinition :=
  ⟨[], [("A", ⟨["B"], emptyShape⟩), ("B", ⟨["A"], emptyShape⟩)], []⟩

/-- The compiled fragments of `cycEntDef`. -/
def cycEntFrags : List (List ValidatorNamespaceDef) :=
  match fromNamespaceDefinition none cycEntDef .prohibitAttributes with
  | .ok d => [[d]]
  | .error _ => []

def nameA : Name := ⟨[], "A"⟩

def nameB : Name := ⟨[], "B"⟩

/-- The pre-closure state of compiling `cycEntDef`. -/
def cycEntPre : PreTC :=
  ⟨[(nameA, ⟨nameA, [nameB], .nil⟩), (nameB, ⟨nameB, [nameA], .nil⟩)], [], [], []⟩

/-- The compiled schema of `cycEntDef`: compilation succeeds and each of the
two entity types has both entity types - itself included - as descendants. -/
def cycEntSchema : ValidatorSchema :=
  ⟨[(nameA, ⟨nameA, [nameA, nameB], .nil⟩), (nameB, ⟨nameB, [nameB, nameA], .nil⟩)], []⟩

/-- Does a successfully compiled schema map `n` to an entity type whose
descendants contain `n` itself? -/
def entitySelfDescendant (r : Except SchemaError ValidatorSchema) (n : Name) : Bool :=
  match r with
  | .ok s =>
      match lookupKey s.entityTypes n with
      | some et => n ∈ et.descendants
      | none => false
  | .error _ => false

/-! ## Claim C1 -/

/-- C1, counterexample: the cyclic-entity schema `cycEntDef` compiles
successfully, `A` is a key of its entity-type map, and `A` is a member of its
own descendants set - refuting the claim that no entity-type key is ever a
member of its own descendants. -/
theorem c1_counterexample :
    (fromSchemaFragments cycEntFrags).isOk = true ∧
      entitySelfDescendant (fromSchemaFragments cycEntFrags) nameA = true := by
  decide

/-- C1, amended: in every successfully compiled schema no action id is a
member of its own descendants set; an entity-type key is a member of its own
descendants set exactly when the pre-closure entity-membership graph has a
cycle through it (such schemas are accepted, not rejected). -/
theorem c1_descendants_self_membership
    {fragments : List (List ValidatorNamespaceDef)} {pre : PreTC}
    {S : ValidatorSchema}
    (hassem : assembleFragments fragments = .ok pre)
    (hok : fromSchemaFragments fragments = .ok S) :
    (∀ p ∈ S.actionIds, p.1 ∉ p.2.descendants) ∧
      (∀ p ∈ S.entityTypes,
        (p.1 ∈ p.2.descendants ↔ Reach (entityGraph pre.entityTypesPre) p.1 p.1)) := by
  obtain ⟨pre', hassem', hET, hclose, hcheck⟩ := fromSchemaFragments_ok_inv hok
  have hpre : pre' = pre := by
    rw [hassem] at hassem'
    exact (Except.ok.injEq _ _).mp hassem'.symm
  subst hpre
  constructor
  · exact closeActionIds_ok_no_self hclose
  · intro p hp
    rw [hET] at hp
    exact closeEntityTypes_self_iff hp

/-- C1, witness: instantiating the amended theorem at the concrete cyclic
schema shows its hypotheses are satisfiable and yields an actual cycle
through `A`. -/
theorem c1_descendants_self_membership_witness :
    Reach (entityGraph cycEntPre.entityTypesPre) nameA nameA := by
  have h := @c1_descendants_self_membership cycEntFrags cycEntPre cycEntSchema
    (by decide) (by decide)
  exact (h.2 (nameA, ⟨nameA, [nameA, nameB], .nil⟩) (by decide)).mp (by decide)

/-! ## Claim C3 -/

/-- After a successful assembly the pipeline continues with the hierarchy
closer and the consistency checker. -/
theorem fromSchemaFragments_assembled {fragments : List (List ValidatorNamespaceDef)}
    {pre : PreTC} (hassem : assembleFragments fragments = .ok pre) :
    fromSchemaFragments fragments =
      (closeActionIds pre.actionIdsPre >>= fun actionIds =>
        checkForUndeclared (closeEntityTypes pre.entityTypesPre)
          (pre.residualEntityChildren.map (fun p => p.1)) actionIds
          (pre.residualActionChildren.map (fun p => p.1)) >>= fun _ =>
        Except.ok ⟨closeEntityTypes pre.entityTypesPre, actionIds⟩) := by
  unfold fromSchemaFragments
  rw [hassem]
  exact rfl

/-- The consistency checker never reports a cycle. -/
theorem checkForUndeclared_ne_cycle
    {ets : List (Name × ValidatorEntityType)} {re : List Name}
    {acts : List (EntityUID × ValidatorActionId)} {ra : List EntityUID} :
    checkForUndeclared ets re acts ra ≠ .error .cycleInActionHierarchy := by
  unfold checkForUndeclared
  dsimp only
  split
  · simp
  · split
    · simp
    · simp

/-- C3: once the fragments assemble successfully, a cycle among declared
actions in the action-membership graph makes compilation fail with
`CycleInActionHierarchy`; absent such a cycle that error is never produced,
so cycles in the entity-membership graph are never diagnosed. -/
theorem c3_action_cycle_detection
    {fragments : List (List ValidatorNamespaceDef)} {pre : PreTC}
    (hassem : assembleFragments fragments = .ok pre) :
    ((∃ a, Reach (actionGraph pre.actionIdsPre) a a) →
        fromSchemaFragments fragments = .error .cycleInActionHierarchy) ∧
      ((∀ a, ¬ Reach (actionGraph pre.actionIdsPre) a a) →
        fromSchemaFragments fragments ≠ .error .cycleInActionHierarchy) := by
  constructor
  · rintro ⟨a, hcyc⟩
    rw [fromSchemaFragments_assembled hassem, closeActionIds_error_of_cycle hcyc]
    rfl
  · intro hnc hEq
    rw [fromSchemaFragments_assembled hassem, closeActionIds_ok_of_no_cycle hnc] at hEq
    rw [show ((Except.ok (closeActionMap pre.actionIdsPre) : Except SchemaError _) >>= fun actionIds =>
          checkForUndeclared (closeEntityTypes pre.entityTypesPre)
            (pre.residualEntityChildren.map (fun p => p.1)) actionIds
            (pre.residualActionChildren.map (fun p => p.1)) >>= fun _ =>
          Except.ok (ValidatorSchema.mk (closeEntityTypes pre.entityTypesPre) actionIds)) =
        (checkForUndeclared (closeEntityTypes pre.entityTypesPre)
            (pre.residualEntityChildren.map (fun p => p.1)) (closeActionMap pre.actionIdsPre)
            (pre.residualActionChildren.map (fun p => p.1)) >>= fun _ =>
          Except.ok (ValidatorSchema.mk (closeEntityTypes pre.entityTypesPre)
            (closeActionMap pre.actionIdsPre))) from rfl] at hEq
    cases hcheck : checkForUndeclared (closeEntityTypes pre.entityTypesPre)
        (pre.residualEntityChildren.map (fun p => p.1)) (closeActionMap pre.actionIdsPre)
        (pre.residualActionChildren.map (fun p => p.1)) with
    | error e =>
        rw [hcheck] at hEq
        rw [show ((Except.error e : Except SchemaError Unit) >>= fun _ =>
              Except.ok (ValidatorSchema.mk (closeEntityTypes pre.entityTypesPre)
                (closeActionMap pre.actionIdsPre))) = Except.error e from rfl] at hEq
        injection hEq with he
        exact checkForUndeclared_ne_cycle (he ▸ hcheck)
    | ok u =>
        cases u
        rw [hcheck] at hEq
        exact Except.noConfusion hEq

/-- A namespace whose single action `view_photo` is a member of itself. -/
def cycActDef : NamespaceDefinition :=
  ⟨[], [], [("view_photo", ⟨none, some [⟨"view_photo", none⟩], none⟩)]⟩

/-- The compiled fragments of `cycActDef`. -/
def cycActFrags : List (List ValidatorNamespaceDef) :=
  match fromNamespaceDefinition none cycActDef .prohibitAttributes with
  | .ok d => [[d]]
  | .error _ => []

def uidViewPhoto : EntityUID := ⟨⟨[], "Action"⟩, "view_photo"⟩

/-- The pre-closure state of compiling `cycActDef`. -/
def cycActPre : PreTC :=
  ⟨[], [],
   [(uidViewPhoto,
     ⟨uidViewPhoto, ⟨[.unspecified], [.unspecified]⟩, [uidViewPhoto], .nil, .nil⟩)],
   []⟩

/-- C3, witness: the self-loop action schema assembles successfully, its
action graph has a (trivial) cycle, and the theorem then forces compilation
to fail with `CycleInActionHierarchy`. -/
theorem c3_action_cycle_detection_witness :
    fromSchemaFragments cycActFrags = .error .cycleInActionHierarchy := by
  have h := @c3_action_cycle_detection cycActFrags cycActPre (by decide)
  exact h.1 ⟨uidViewPhoto,
    ⟨[], (by decide : uidViewPhoto ∈ succs (actionGraph cycActPre.actionIdsPre) uidViewPhoto)⟩⟩

/-! ## Claim C2 -/

/-- C2: in every successfully compiled schema, every entity-type name
occurring in a declared entity type's attribute-type tree, in an action's
context attribute-type tree, or as a `Concrete` entry of an action's
principal or resource apply set, is a key of the schema's entity-type map
(the consistency checker otherwise collects it and fails with
`UndeclaredEntityTypes`). -/
theorem c2_references_declared
    {fragments : List (List ValidatorNamespaceDef)} {S : ValidatorSchema}
    (hok : fromSchemaFragments fragments = .ok S) :
    (∀ p ∈ S.entityTypes, ∀ q ∈ namesInAttrs p.2.attributes,
        containsKey S.entityTypes q = true) ∧
      (∀ p ∈ S.actionIds, ∀ q ∈ namesInAttrs p.2.context,
        containsKey S.entityTypes q = true) ∧
      (∀ p ∈ S.actionIds, ∀ q : Name,
        (EntityType.concrete q ∈ p.2.appliesTo.principalApplySpec ∨
          EntityType.concrete q ∈ p.2.appliesTo.resourceApplySpec) →
        containsKey S.entityTypes q = true) := by
  obtain ⟨pre, -, -, -, hcheck⟩ := fromSchemaFragments_ok_inv hok
  obtain ⟨hempty, -⟩ := checkForUndeclared_ok_inv hcheck
  refine ⟨?_, ?_, ?_⟩
  · intro p hp q hq
    cases hc : containsKey S.entityTypes q with
    | true => rfl
    | false =>
        have := @undeclaredEntitySet_collects_attr S.entityTypes (pre.residualEntityChildren.map (fun p => p.1)) S.actionIds p q hp hq hc
        rw [hempty] at this
        exact absurd this (List.not_mem_nil _)
  · intro p hp q hq
    cases hc : containsKey S.entityTypes q with
    | true => rfl
    | false =>
        have := @undeclaredEntitySet_collects_context S.entityTypes (pre.residualEntityChildren.map (fun p => p.1)) S.actionIds p q hp hq hc
        rw [hempty] at this
        exact absurd this (List.not_mem_nil _)
  · intro p hp q hq
    cases hc : containsKey S.entityTypes q with
    | true => rfl
    | false =>
        rcases hq with hq | hq
        · have := @undeclaredEntitySet_collects_principal S.entityTypes (pre.residualEntityChildren.map (fun p => p.1)) S.actionIds p q hp hq hc
          rw [hempty] at this
          exact absurd this (List.not_mem_nil _)
        · have := @undeclaredEntitySet_collects_resource S.entityTypes (pre.residualEntityChildren.map (fun p => p.1)) S.actionIds p q hp hq hc
          rw [hempty] at this
          exact absurd this (List.not_mem_nil _)

/-! ## Claim C7 -/

/-- C7: the consistency checker reports a non-empty undeclared-entity-type
set as one aggregated `UndeclaredEntityTypes` error, even when undeclared
actions were also found; `UndeclaredActions` is returned only when the
undeclared-entity-type set is empty, and then carries the whole aggregated
action set. -/
theorem c7_undeclared_error_precedence
    {ets : List (Name × ValidatorEntityType)} {re : List Name}
    {acts : List (EntityUID × ValidatorActionId)} {ra : List EntityUID} :
    (undeclaredEntitySet ets re acts ≠ [] →
        checkForUndeclared ets re acts ra =
          .error (.undeclaredEntityTypes (undeclaredEntitySet ets re acts))) ∧
      (∀ s, checkForUndeclared ets re acts ra = .error (.undeclaredActions s) →
        undeclaredEntitySet ets re acts = [] ∧ s = undeclaredActionSet ra) ∧
      (undeclaredEntitySet ets re acts = [] → undeclaredActionSet ra ≠ [] →
        checkForUndeclared ets re acts ra =
          .error (.undeclaredActions (undeclaredActionSet ra))) := by
  refine ⟨?_, ?_, ?_⟩
  · intro hne
    unfold checkForUndeclared
    dsimp only
    rw [if_pos hne]
  · intro s h
    unfold checkForUndeclared at h
    dsimp only at h
    split at h
    · injection h with he
      exact absurd he (by simp)
    · next hne =>
        rw [not_not] at hne
        split at h
        · injection h with he
          injection he with hs
          exact ⟨hne, hs.symm⟩
        · exact Except.noConfusion h
  · intro he ha
    unfold checkForUndeclared
    dsimp only
    rw [if_neg (by rw [he]; exact fun hc => hc rfl), if_pos ha]

/-- C7, witness: with one undeclared parent entity type and one undeclared
parent action, the checker reports the aggregated `UndeclaredEntityTypes`
error. -/
theorem c7_undeclared_error_precedence_witness :
    checkForUndeclared [] [nameA] [] [uidViewPhoto] =
      .error (.undeclaredEntityTypes (undeclaredEntitySet [] [nameA] [])) :=
  (c7_undeclared_error_precedence).1 (by decide)

/-! ## Inversion lemmas for the effectful folds -/

theorem exceptMapM_ok_mem {ε α β : Type} {f : α → Except ε β} {l : List α}
    {r : List β} (h : exceptMapM f l = .ok r) : ∀ y ∈ r, ∃ x ∈ l, f x = .ok y := by
  induction l generalizing r with
  | nil =>
      cases h
      intro y hy
      exact absurd hy (List.not_mem_nil y)
  | cons x t ih =>
      obtain ⟨y, hy, h⟩ := except_bind_ok h
      obtain ⟨s, hs, h⟩ := except_bind_ok h
      cases h
      intro z hz
      rcases List.mem_cons.mp hz with rfl | hz'
      · exact ⟨x, List.mem_cons_self x t, hy⟩
      · obtain ⟨x', hx', hf⟩ := ih hs z hz'
        exact ⟨x', List.mem_cons_of_mem x hx', hf⟩

theorem exceptMapM_ok_forall {ε α β : Type} {f : α → Except ε β} {l : List α}
    {r : List β} (h : exceptMapM f l = .ok r) : ∀ x ∈ l, ∃ y ∈ r, f x = .ok y := by
  induction l generalizing r with
  | nil =>
      intro x hx
      exact absurd hx (List.not_mem_nil x)
  | cons x t ih =>
      obtain ⟨y, hy, h⟩ := except_bind_ok h
      obtain ⟨s, hs, h⟩ := except_bind_ok h
      cases h
      intro z hz
      rcases List.mem_cons.mp hz with rfl | hz'
      · exact ⟨y, List.mem_cons_self y s, hy⟩
      · obtain ⟨y', hy', hf⟩ := ih hs z hz'
        exact ⟨y', List.mem_cons_of_mem y hy', hf⟩

theorem exceptMapM_ne_ok {ε α β : Type} {f : α → Except ε β} {l : List α}
    {x : α} {e : ε} (hx : x ∈ l) (he : f x = .error e) :
    ∀ r, exceptMapM f l ≠ .ok r := by
  intro r h
  obtain ⟨y, hy, hf⟩ := exceptMapM_ok_forall h x hx
  rw [he] at hf
  exact Except.noConfusion hf

theorem exceptMapM_error {ε α β : Type} {f : α → Except ε β} {l : List α}
    {e : ε} (h : exceptMapM f l = .error e) : ∃ x ∈ l, f x = .error e := by
  induction l with
  | nil => exact Except.noConfusion h
  | cons x t ih =>
      unfold exceptMapM at h
      cases hf : f x with
      | error e' =>
          rw [hf] at h
          rw [show ((Except.error e' : Except ε β) >>= fun y =>
                exceptMapM f t >>= fun r => Except.ok (y :: r)) =
              Except.error e' from rfl] at h
          injection h with he
          exact ⟨x, List.mem_cons_self x t, by rw [hf, he]⟩
      | ok y =>
          rw [hf] at h
          rw [show ((Except.ok y : Except ε β) >>= fun y =>
                exceptMapM f t >>= fun r => Except.ok (y :: r)) =
              (exceptMapM f t >>= fun r => Except.ok (y :: r)) from rfl] at h
          cases hm : exceptMapM f t with
          | error e' =>
              rw [hm] at h
              rw [show ((Except.error e' : Except ε (List β)) >>= fun r =>
                    (Except.ok (y :: r) : Except ε (List β))) = Except.error e' from rfl] at h
              injection h with he
              obtain ⟨z, hz, hfz⟩ := ih (by rw [hm, he])
              exact ⟨z, List.mem_cons_of_mem x hz, hfz⟩
          | ok r =>
              rw [hm] at h
              exact Except.noConfusion h

theorem exceptFoldlM_error {ε α β : Type} {f : β → α → Except ε β} {b : β}
    {l : List α} {e : ε} (h : exceptFoldlM f b l = .error e) :
    ∃ c x, x ∈ l ∧ f c x = .error e := by
  induction l generalizing b with
  | nil => exact Except.noConfusion h
  | cons x t ih =>
      unfold exceptFoldlM at h
      cases hf : f b x with
      | error e' =>
          rw [hf] at h
          rw [show ((Except.error e' : Except ε β) >>= fun c =>
                exceptFoldlM f c t) = Except.error e' from rfl] at h
          injection h with he
          exact ⟨b, x, List.mem_cons_self x t, by rw [hf, he]⟩
      | ok c =>
          rw [hf] at h
          rw [show ((Except.ok c : Except ε β) >>= fun c =>
                exceptFoldlM f c t) = exceptFoldlM f c t from rfl] at h
          obtain ⟨c', z, hz, hfz⟩ := ih h
          exact ⟨c', z, List.mem_cons_of_mem x hz, hfz⟩

/-- Membership in the set-collecting fold of `parse_apply_spec_type_list`. -/
theorem mem_foldl_insertElem {α : Type} [DecidableEq α] {y : α} (l : List α)
    (init : List α) :
    y ∈ l.foldl (fun acc x => insertElem x acc) init ↔ y ∈ init ∨ y ∈ l := by
  induction l generalizing init with
  | nil => simp
  | cons x t ih =>
      simp only [List.foldl_cons, ih, mem_insertElem, List.mem_cons]
      tauto

/-! ## Claim C4 -/

/-- C4: an absent `principalTypes`/`resourceTypes` list yields exactly the
singleton unspecified apply set; a present list parses to a set consisting
only of `Concrete` entries - one per successfully parsed name of the list,
and nothing else. -/
theorem c4_apply_spec_type_list (ns : List String) :
    parseApplySpecTypeList none ns = .ok [.unspecified] ∧
      (∀ ts r, parseApplySpecTypeList (some ts) ns = .ok r →
        EntityType.unspecified ∉ r ∧
          (∀ x, x ∈ r ↔ ∃ s ∈ ts, ∃ n, parsePQN s ns = some n ∧
            x = EntityType.concrete n)) := by
  refine ⟨rfl, ?_⟩
  intro ts r h
  unfold parseApplySpecTypeList at h
  obtain ⟨parsed, hm, h⟩ := except_bind_ok h
  injection h with hr
  have hchar : ∀ x, x ∈ r ↔ ∃ s ∈ ts, ∃ n, parsePQN s ns = some n ∧
      x = EntityType.concrete n := by
    intro x
    rw [← hr, mem_foldl_insertElem]
    simp only [List.not_mem_nil, false_or]
    constructor
    · intro hx
      obtain ⟨s, hs, hf⟩ := exceptMapM_ok_mem hm x hx
      cases hp : parsePQN s ns with
      | none => rw [hp] at hf; exact Except.noConfusion hf
      | some n =>
          rw [hp] at hf
          injection hf with he
          exact ⟨s, hs, n, hp, he.symm⟩
    · rintro ⟨s, hs, n, hp, rfl⟩
      obtain ⟨y, hy, hf⟩ := exceptMapM_ok_forall hm s hs
      rw [hp] at hf
      injection hf with he
      rw [he]
      exact hy
  refine ⟨?_, hchar⟩
  intro hu
  obtain ⟨s, hs, n, hp, he⟩ := (hchar _).mp hu
  exact EntityType.noConfusion he

/-- C4, witness: a one-element list parses to the singleton concrete set,
which does not contain the unspecified sentinel. -/
theorem c4_apply_spec_type_list_witness :
    EntityType.unspecified ∉ [EntityType.concrete nameA] :=
  (((c4_apply_spec_type_list []).2 ["A"] [.concrete nameA]) (by decide)).1

/-! ## Claim C9 -/

/-- C9: an explicitly present but empty `principalTypes`/`resourceTypes`
list yields the empty apply set without error, observably different from the
singleton unspecified set produced when the list is omitted. -/
theorem c9_empty_apply_spec_list (ns : List String) :
    parseApplySpecTypeList (some []) ns = .ok [] ∧
      parseApplySpecTypeList none ns = .ok [.unspecified] ∧
      ([] : List EntityType) ≠ [.unspecified] := by
  exact ⟨rfl, rfl, by simp⟩

/-! ## Claim C8 -/

/-- Characters of a valid identifier are never colons. -/
theorem validId_no_colon {s : String} (h : isValidId s = true) :
    ∀ c ∈ s.data, c ≠ ':' := by
  unfold isValidId at h
  cases hd : s.data with
  | nil => rw [hd] at h; exact Bool.noConfusion h
  | cons c cs =>
      rw [hd] at h
      simp only [Bool.and_eq_true, Bool.or_eq_true, List.all_eq_true,
        decide_eq_true_eq] at h
      obtain ⟨h₁, h₂⟩ := h
      intro d hd' he
      rcases List.mem_cons.mp hd' with rfl | hd''
      · rcases h₁ with h₁ | h₁
        · rw [he] at h₁; exact absurd h₁ (by decide)
        · rw [he] at h₁; exact absurd h₁ (by decide)
      · rcases h₂ d hd'' with h₃ | h₃
        · rw [he] at h₃; exact absurd h₃ (by decide)
        · rw [he] at h₃; exact absurd h₃ (by decide)

/-- A non-colon head character is pushed onto the current segment. -/
theorem splitSegsAux_cons_ne_colon {c : Char} {rest cur : List Char}
    (hc : c ≠ ':') :
    splitSegsAux (c :: rest) cur = splitSegsAux rest (c :: cur) := by
  rw [splitSegsAux.eq_def]
  split
  · next heq => exact absurd heq (by simp)
  · next r heq =>
      injection heq with h₁ h₂
      exact absurd h₁ hc
  · next c₂ r hno hne =>
      injection hne with h₁ h₂
      subst h₁
      subst h₂
      rfl

/-- On a colon-free character list the segment splitter yields one
segment. -/
theorem splitSegsAux_no_colon (l : List Char) :
    ∀ cur, (∀ c ∈ l, c ≠ ':') → splitSegsAux l cur = [cur.reverse ++ l] := by
  induction l with
  | nil => intro cur h; simp [splitSegsAux]
  | cons c rest ih =>
      intro cur h
      have hc : c ≠ ':' := h c (List.mem_cons_self c rest)
      rw [splitSegsAux_cons_ne_colon hc]
      rw [ih (c :: cur) (fun d hd => h d (List.mem_cons_of_mem c hd))]
      simp

/-- A valid identifier parses as an unqualified name: empty path, the
identifier itself as base. -/
theorem parseName_validId {s : String} (h : isValidId s = true) :
    parseName s = some ⟨[], s⟩ := by
  have hsplit : splitSegs s = [s] := by
    unfold splitSegs
    rw [splitSegsAux_no_colon s.data [] (validId_no_colon h)]
    simp only [List.reverse_nil, List.nil_append, List.map_cons, List.map_nil]
  unfold parseName
  rw [hsplit]
  simp [h]

/-- C8: an action parent reference with an explicit `type` string is parsed
as a qualified name with no default namespace applied (in particular a bare
identifier denotes the root namespace, whatever the fragment namespace is);
with no `type`, the parent's entity type is the reserved base name `Action`
qualified with the fragment's namespace. -/
theorem c8_action_parent_reference (ns : List String) :
    (∀ (a : ActionEntityUID) (s : String) (n : Name), a.ty = some s →
        parseName s = some n →
        parseActionIdWithNamespace a ns = .ok ⟨n, a.id⟩) ∧
      (∀ s, isValidId s = true → parseName s = some ⟨[], s⟩) ∧
      (∀ a : ActionEntityUID, a.ty = none →
        parseActionIdWithNamespace a ns = .ok ⟨⟨ns, actionEntityType⟩, a.id⟩) := by
  refine ⟨?_, ?_, ?_⟩
  · intro a s n hty hp
    obtain ⟨i, ty⟩ := a
    simp only at hty
    subst hty
    unfold parseActionIdWithNamespace
    dsimp only
    rw [hp]
  · intro s h
    exact parseName_validId h
  · intro a hty
    obtain ⟨i, ty⟩ := a
    simp only at hty
    subst hty
    rfl

/-- C8, witness: with fragment namespace `NS`, the explicit type `T` of a
parent reference resolves to root-namespace `T`, while the reference without
a type resolves to `NS::Action`. -/
theorem c8_action_parent_reference_witness :
    parseActionIdWithNamespace ⟨"edit", some "T"⟩ ["NS"] = .ok ⟨⟨[], "T"⟩, "edit"⟩ ∧
      parseActionIdWithNamespace ⟨"edit", none⟩ ["NS"] =
        .ok ⟨⟨["NS"], "Action"⟩, "edit"⟩ := by
  have h := c8_action_parent_reference ["NS"]
  exact ⟨h.1 ⟨"edit", some "T"⟩ "T" ⟨[], "T"⟩ rfl (h.2.1 "T" (by decide)),
         h.2.2 ⟨"edit", none⟩ rfl⟩

/-! ## Claim C5 -/

/-- C5: a common-type alias whose body is a bare reference to another alias
is resolved against an empty type-def table, so processing that entry always
fails with `UndeclaredCommonType` - whatever other aliases the fragment
declares - and `build_type_defs` on any fragment containing such an entry
never succeeds. -/
theorem c5_alias_body_reference
    {cts : List (String × SchemaType)} {n tn : String} {ns : List String} {q : Name}
    (hmem : (n, SchemaType.typeDef tn) ∈ cts)
    (hnb : isBuiltinTypeName n = false)
    (hn : isValidId n = true)
    (htn : parsePQN tn ns = some q) :
    buildTypeDefEntry ns (n, .typeDef tn) = .error (.undeclaredCommonType [tn]) ∧
      ∀ r, buildTypeDefs cts ns ≠ .ok r := by
  have hentry : buildTypeDefEntry ns (n, .typeDef tn) =
      .error (.undeclaredCommonType [tn]) := by
    unfold buildTypeDefEntry
    dsimp only
    rw [hnb]
    simp only [Bool.false_eq_true, if_false]
    unfold parseUnqualified
    rw [hn]
    simp only [if_true]
    unfold trySchemaTypeIntoValidatorType
    rw [htn]
    rfl
  exact ⟨hentry, fun r => exceptMapM_ne_ok hmem hentry r⟩

/-- C5, witness: the alias `A` whose body references the alias `MyLong` -
declared right next to it in the same fragment - fails with
`UndeclaredCommonType`, and the fragment's type defs cannot be built. -/
theorem c5_alias_body_reference_witness :
    buildTypeDefEntry [] ("A", .typeDef "MyLong") =
        .error (.undeclaredCommonType ["MyLong"]) ∧
      ∀ r, buildTypeDefs [("MyLong", .long), ("A", .typeDef "MyLong")] [] ≠ .ok r := by
  have h := @c5_alias_body_reference [("MyLong", .long), ("A", .typeDef "MyLong")]
    "A" "MyLong" [] ⟨[], "MyLong"⟩ (by decide) (by decide) (by decide) (by decide)
  exact h

/-! ## Claim C6 -/

/-- The duplicate scan reports nothing on a duplicate-free key list. -/
theorem firstDuplicate_none_of_nodup {l : List String} (h : l.Nodup) :
    ∀ seen, (∀ x ∈ l, x ∉ seen) → firstDuplicate l seen = none := by
  induction l with
  | nil => intro seen _; rfl
  | cons k t ih =>
      intro seen hd
      unfold firstDuplicate
      rw [if_neg (hd k (List.mem_cons_self k t))]
      obtain ⟨hk, hnd⟩ := List.nodup_cons.mp h
      refine ih hnd (k :: seen) ?_
      intro x hx hmem
      rcases List.mem_cons.mp hmem with rfl | hmem'
      · exact hk hx
      · exact hd x (List.mem_cons_of_mem k hx) hmem'

/-- Under `ProhibitAttributes`, a namespace with no entity type named
`Action` but at least one action carrying attributes is rejected with the
ids of all offending actions. -/
theorem checkActionBehavior_attributes
    {nsDef : NamespaceDefinition}
    (hact : nsDef.entityTypes.any (fun q => q.1 = actionEntityType) = false)
    (hattr : nsDef.actions.any (fun q => q.2.attributes.isSome) = true) :
    checkActionBehavior nsDef .prohibitAttributes =
      .error (.actionEntityAttributes
        ((nsDef.actions.filter (fun q => q.2.attributes.isSome)).map (fun q => q.1))) := by
  unfold checkActionBehavior
  rw [hact]
  simp only [Bool.false_eq_true, if_false]
  rw [if_pos]
  obtain ⟨q, hq, hs⟩ := List.any_eq_true.mp hattr
  have hqf : q ∈ nsDef.actions.filter (fun q => q.2.attributes.isSome) :=
    List.mem_filter.mpr ⟨hq, hs⟩
  intro hnil
  rw [List.map_eq_nil_iff] at hnil
  rw [hnil] at hqf
  exact List.not_mem_nil q hqf

/-- C6: compiling a namespace definition under `ProhibitAttributes` - with
duplicate-free keys as a `HashMap` guarantees, a parseable namespace, and no
entity type literally named `Action` (which would be rejected first) - fails
with `ActionEntityAttributes` listing the id of every action that declares an
`attributes` field, as soon as at least one action does; the check precedes
all type conversion, so the error is produced whatever the declarations'
bodies contain. -/
theorem c6_prohibit_attributes
    {nsDef : NamespaceDefinition} {s : String} {p : List String}
    (hde : (nsDef.entityTypes.map (fun q => q.1)).Nodup)
    (hda : (nsDef.actions.map (fun q => q.1)).Nodup)
    (hns : parseNamespace s = some p)
    (hact : nsDef.entityTypes.any (fun q => q.1 = actionEntityType) = false)
    (hattr : nsDef.actions.any (fun q => q.2.attributes.isSome) = true) :
    fromNamespaceDefinition (some s) nsDef .prohibitAttributes =
        .error (.actionEntityAttributes
          ((nsDef.actions.filter (fun q => q.2.attributes.isSome)).map (fun q => q.1))) ∧
      ∀ i, i ∈ (nsDef.actions.filter (fun q => q.2.attributes.isSome)).map (fun q => q.1) ↔
        ∃ a, (i, a) ∈ nsDef.actions ∧ a.attributes.isSome = true := by
  constructor
  · unfold fromNamespaceDefinition
    rw [firstDuplicate_none_of_nodup hde [] (fun x _ => List.not_mem_nil x),
        firstDuplicate_none_of_nodup hda [] (fun x _ => List.not_mem_nil x)]
    dsimp only
    rw [hns]
    dsimp only
    rw [checkActionBehavior_attributes hact hattr]
    rfl
  · intro i
    simp only [List.mem_map, List.mem_filter]
    constructor
    · rintro ⟨q, ⟨hq, hs'⟩, rfl⟩
      exact ⟨q.2, hq, hs'⟩
    · rintro ⟨a, ha, hs'⟩
      exact ⟨(i, a), ⟨ha, hs'⟩, rfl⟩

/-- A namespace definition with two actions declaring attributes (`a1`,
`a3`) and one not (`a2`). -/
def attrsDef : NamespaceDefinition :=
  ⟨[], [("User", ⟨[], emptyShape⟩)],
   [("a1", ⟨none, none, some [("x", .bool true)]⟩),
    ("a2", ⟨none, none, none⟩),
    ("a3", ⟨none, none, some []⟩)]⟩

/-- C6, witness: compiling `attrsDef` under `ProhibitAttributes` reports
both offending action ids at once. -/
theorem c6_prohibit_attributes_witness :
    fromNamespaceDefinition (some "NS") attrsDef .prohibitAttributes =
      .error (.actionEntityAttributes ["a1", "a3"]) := by
  have h := @c6_prohibit_attributes attrsDef "NS" ["NS"]
    (by decide) (by decide) (by decide) (by decide) (by decide)
  exact h.1.trans (congrArg Except.error (by decide))

/-! ## Claim C10: error classification -/

/-- Is this one of the two within-fragment duplicate errors? -/
def isDupError : SchemaError → Bool
  | .duplicateEntityType _ => true
  | .duplicateAction _ => true
  | _ => false

/-- The computation never fails with a duplicate-entity-type or
duplicate-action error. -/
def NoDupErr {α : Type} (x : Except SchemaError α) : Prop :=
  ∀ e, x = .error e → isDupError e = false

theorem except_bind_error {ε α β : Type} {x : Except ε α} {f : α → Except ε β}
    {e : ε} (h : (x >>= f) = .error e) :
    x = .error e ∨ ∃ a, x = .ok a ∧ f a = .error e := by
  cases x with
  | error e' =>
      rw [show (Except.error e' >>= f : Except ε β) = Except.error e' from rfl] at h
      injection h with he
      exact Or.inl (by rw [he])
  | ok a =>
      rw [show (Except.ok a >>= f : Except ε β) = f a from rfl] at h
      exact Or.inr ⟨a, rfl, h⟩

theorem noDupErr_ok {α : Type} (a : α) : NoDupErr (.ok a) :=
  fun _ h => Except.noConfusion h

theorem noDupErr_error {e : SchemaError} (h : isDupError e = false) {α : Type} :
    NoDupErr (.error e : Except SchemaError α) := by
  intro e' h'
  injection h' with he
  rw [← he]
  exact h

theorem noDupErr_bind {α β : Type} {x : Except SchemaError α}
    {f : α → Except SchemaError β} (hx : NoDupErr x)
    (hf : ∀ a, x = .ok a → NoDupErr (f a)) : NoDupErr (x >>= f) := by
  intro e h
  rcases except_bind_error h with h' | ⟨a, ha, h'⟩
  · exact hx e h'
  · exact hf a ha e h'

theorem noDupErr_exceptMapM {α β : Type} {f : α → Except SchemaError β}
    {l : List α} (h : ∀ x ∈ l, NoDupErr (f x)) : NoDupErr (exceptMapM f l) := by
  intro e he
  obtain ⟨x, hx, hfx⟩ := exceptMapM_error he
  exact h x hx e hfx

theorem noDupErr_exceptFoldlM {α β : Type} {f : β → α → Except SchemaError β}
    {b : β} {l : List α} (h : ∀ c x, x ∈ l → NoDupErr (f c x)) :
    NoDupErr (exceptFoldlM f b l) := by
  intro e he
  obtain ⟨c, x, hx, hfx⟩ := exceptFoldlM_error he
  exact h c x hx e hfx

/-- Resolving converted attributes only propagates errors of the stored
deferred types. -/
theorem resolveAttrs_noDup {ds : List (String × Deferred VType × Bool)}
    (h : ∀ x ∈ ds, ∀ tds, NoDupErr (x.2.1 tds)) :
    ∀ tds, NoDupErr (resolveAttrs ds tds) := by
  induction ds with
  | nil => intro tds; exact noDupErr_ok _
  | cons x t ih =>
      intro tds
      unfold resolveAttrs
      refine noDupErr_bind (h x (List.mem_cons_self x t) tds) ?_
      intro v _
      refine noDupErr_bind (ih (fun y hy => h y (List.mem_cons_of_mem x hy)) tds) ?_
      intro r _
      exact noDupErr_ok _

mutual

/-- Schema type conversion, and the deferred types it produces, never fail
with a duplicate error. -/
theorem tryST_noDup (ns : List String) : (t : SchemaType) →
    NoDupErr (trySchemaTypeIntoValidatorType ns t) ∧
      (∀ d, trySchemaTypeIntoValidatorType ns t = .ok d →
        ∀ tds, NoDupErr (d tds))
  | .string =>
      ⟨noDupErr_ok _, fun d hd tds => by cases hd; exact noDupErr_ok _⟩
  | .long =>
      ⟨noDupErr_ok _, fun d hd tds => by cases hd; exact noDupErr_ok _⟩
  | .boolean =>
      ⟨noDupErr_ok _, fun d hd tds => by cases hd; exact noDupErr_ok _⟩
  | .set element => by
      obtain ⟨h₁, h₂⟩ := tryST_noDup ns element
      constructor
      · unfold trySchemaTypeIntoValidatorType
        refine noDupErr_bind h₁ ?_
        intro d _
        exact noDupErr_ok _
      · intro d hd tds
        unfold trySchemaTypeIntoValidatorType at hd
        obtain ⟨d', hd', he⟩ := except_bind_ok hd
        cases he
        refine noDupErr_bind (h₂ d' hd' tds) ?_
        intro t _
        exact noDupErr_ok _
  | .record attributes additionalAttributes => by
      obtain ⟨h₁, h₂⟩ := convertSAttrs_noDup ns attributes
      constructor
      · unfold trySchemaTypeIntoValidatorType
        split
        · refine noDupErr_error ?_; rfl
        · refine noDupErr_bind h₁ ?_
          intro ds _
          exact noDupErr_ok _
      · intro d hd tds
        unfold trySchemaTypeIntoValidatorType at hd
        split at hd
        · exact Except.noConfusion hd
        · obtain ⟨ds, hds, he⟩ := except_bind_ok hd
          cases he
          refine noDupErr_bind (resolveAttrs_noDup (h₂ ds hds) tds) ?_
          intro va _
          exact noDupErr_ok _
  | .entity name => by
      constructor
      · unfold trySchemaTypeIntoValidatorType
        split
        · exact noDupErr_ok _
        · refine noDupErr_error ?_; rfl
      · intro d hd tds
        unfold trySchemaTypeIntoValidatorType at hd
        split at hd
        · cases hd; exact noDupErr_ok _
        · exact Except.noConfusion hd
  | .extension name => by
      constructor
      · unfold trySchemaTypeIntoValidatorType
        split
        · exact noDupErr_ok _
        · refine noDupErr_error ?_; rfl
      · intro d hd tds
        unfold trySchemaTypeIntoValidatorType at hd
        split at hd
        · cases hd; exact noDupErr_ok _
        · exact Except.noConfusion hd
  | .typeDef typeName => by
      constructor
      · unfold trySchemaTypeIntoValidatorType
        split
        · exact noDupErr_ok _
        · refine noDupErr_error ?_; rfl
      · intro d hd tds
        unfold trySchemaTypeIntoValidatorType at hd
        split at hd
        · cases hd
          intro e he
          dsimp only at he
          split at he
          · exact Except.noConfusion he
          · injection he with he'
            rw [← he']
            rfl
        · exact Except.noConfusion hd

/-- Converting record attributes, and the deferred types stored in the
result, never fail with a duplicate error. -/
theorem convertSAttrs_noDup (ns : List String) : (attrs : SAttrs) →
    NoDupErr (convertSAttrs ns attrs) ∧
      (∀ ds, convertSAttrs ns attrs = .ok ds →
        ∀ x ∈ ds, ∀ tds, NoDupErr (x.2.1 tds))
  | .nil => by
      constructor
      · exact noDupErr_ok _
      · intro ds hds x hx tds
        cases hds
        exact absurd hx (List.not_mem_nil x)
  | .cons name ty required rest => by
      obtain ⟨h₁, h₂⟩ := tryST_noDup ns ty
      obtain ⟨h₃, h₄⟩ := convertSAttrs_noDup ns rest
      constructor
      · unfold convertSAttrs
        refine noDupErr_bind h₁ ?_
        intro d hd
        refine noDupErr_bind h₃ ?_
        intro r _
        exact noDupErr_ok _
      · intro ds hds x hx tds
        unfold convertSAttrs at hds
        obtain ⟨d, hd, hds⟩ := except_bind_ok hds
        obtain ⟨r, hr, he⟩ := except_bind_ok hds
        cases he
        rcases List.mem_cons.mp hx with rfl | hx'
        · exact h₂ d hd tds
        · exact h₄ r hr x hx' tds

end

mutual

/-- Action attribute value inference never fails with a duplicate error. -/
theorem jsonval_noDup : (v : JSONValue) → NoDupErr (jsonvalToTypeHelper v)
  | .bool _ => noDupErr_ok _
  | .long _ => noDupErr_ok _
  | .string _ => noDupErr_ok _
  | .record fields => by
      unfold jsonvalToTypeHelper
      refine noDupErr_bind (jfields_noDup fields) ?_
      intro a _
      exact noDupErr_ok _
  | .set .nil => by
      unfold jsonvalToTypeHelper
      refine noDupErr_error ?_; rfl
  | .set (.cons v _) => by
      unfold jsonvalToTypeHelper
      refine noDupErr_bind (jsonval_noDup v) ?_
      intro t _
      exact noDupErr_ok _
  | .other => by
      unfold jsonvalToTypeHelper
      refine noDupErr_error ?_; rfl

theorem jfields_noDup : (fields : JFields) → NoDupErr (jfieldsToAttrs fields)
  | .nil => noDupErr_ok _
  | .cons _ v rest => by
      unfold jfieldsToAttrs
      refine noDupErr_bind (jsonval_noDup v) ?_
      intro t _
      refine noDupErr_bind (jfields_noDup rest) ?_
      intro r _
      exact noDupErr_ok _

end

theorem convertAttrJsonvalMap_noDup (m : List (String × JSONValue)) :
    NoDupErr (convertAttrJsonvalMapToAttributes m) := by
  induction m with
  | nil => exact noDupErr_ok _
  | cons x t ih =>
      unfold convertAttrJsonvalMapToAttributes
      refine noDupErr_bind (jsonval_noDup x.2) ?_
      intro v _
      refine noDupErr_bind ih ?_
      intro r _
      exact noDupErr_ok _

theorem parseApplySpecTypeList_noDup (o : Option (List String)) (ns : List String) :
    NoDupErr (parseApplySpecTypeList o ns) := by
  unfold parseApplySpecTypeList
  cases o with
  | none => exact noDupErr_ok _
  | some ts =>
      refine noDupErr_bind (noDupErr_exceptMapM ?_) ?_
      · intro x _
        split
        · exact noDupErr_ok _
        · refine noDupErr_error ?_; rfl
      · intro r _
        exact noDupErr_ok _

theorem parseActionId_noDup (a : ActionEntityUID) (ns : List String) :
    NoDupErr (parseActionIdWithNamespace a ns) := by
  unfold parseActionIdWithNamespace
  split
  · split
    · exact noDupErr_ok _
    · refine noDupErr_error ?_; rfl
  · exact noDupErr_ok _

theorem buildTypeDefEntry_noDup (ns : List String) (p : String × SchemaType) :
    NoDupErr (buildTypeDefEntry ns p) := by
  unfold buildTypeDefEntry
  split
  · refine noDupErr_error ?_; rfl
  · split
    · refine noDupErr_error ?_; rfl
    · next name heq =>
        obtain ⟨h₁, h₂⟩ := tryST_noDup ns p.2
        refine noDupErr_bind h₁ ?_
        intro d hd
        refine noDupErr_bind (h₂ d hd []) ?_
        intro ty _
        exact noDupErr_ok _

theorem buildTypeDefs_noDup (cts : List (String × SchemaType)) (ns : List String) :
    NoDupErr (buildTypeDefs cts ns) :=
  noDupErr_exceptMapM (fun x _ => buildTypeDefEntry_noDup ns x)

theorem buildEntityChildren_noDup (ets : List (String × EntityTypeFragment))
    (ns : List String) : NoDupErr (buildEntityChildren ets ns) := by
  unfold buildEntityChildren
  refine noDupErr_exceptFoldlM ?_
  intro c x _
  refine noDupErr_exceptFoldlM ?_
  intro c' y _
  split
  · refine noDupErr_error ?_; rfl
  · split
    · refine noDupErr_error ?_; rfl
    · exact noDupErr_ok _

theorem buildEntityTypes_noDup (ets : List (String × EntityTypeFragment))
    (ns : List String) : NoDupErr (buildEntityTypes ets ns) := by
  unfold buildEntityTypes
  refine noDupErr_bind (buildEntityChildren_noDup ets ns) ?_
  intro c _
  refine noDupErr_bind (noDupErr_exceptMapM ?_) ?_
  · intro x _
    split
    · refine noDupErr_error ?_; rfl
    · refine noDupErr_bind (tryST_noDup ns x.2.shape).1 ?_
      intro d _
      exact noDupErr_ok _
  · intro r _
    exact noDupErr_ok _

theorem buildActionChildren_noDup (acts : List (String × ActionTypeFragment))
    (ns : List String) : NoDupErr (buildActionChildren acts ns) := by
  unfold buildActionChildren
  refine noDupErr_exceptFoldlM ?_
  intro c x _
  split
  · exact noDupErr_ok _
  · refine noDupErr_exceptFoldlM ?_
    intro c' y _
    refine noDupErr_bind (parseActionId_noDup y ns) ?_
    intro u _
    refine noDupErr_bind (parseActionId_noDup _ ns) ?_
    intro u' _
    exact noDupErr_ok _

theorem buildActionIds_noDup (acts : List (String × ActionTypeFragment))
    (ns : List String) : NoDupErr (buildActionIds acts ns) := by
  unfold buildActionIds
  refine noDupErr_bind (buildActionChildren_noDup acts ns) ?_
  intro c _
  refine noDupErr_bind (noDupErr_exceptMapM ?_) ?_
  · intro x _
    refine noDupErr_bind (parseActionId_noDup _ ns) ?_
    intro u _
    refine noDupErr_bind (parseApplySpecTypeList_noDup _ ns) ?_
    intro ps _
    refine noDupErr_bind (parseApplySpecTypeList_noDup _ ns) ?_
    intro rs _
    refine noDupErr_bind (tryST_noDup ns _).1 ?_
    intro d _
    exact noDupErr_ok _
  · intro r _
    refine noDupErr_bind (noDupErr_exceptMapM ?_) ?_
    · intro x _
      refine noDupErr_bind (parseActionId_noDup _ ns) ?_
      intro u _
      refine noDupErr_bind (convertAttrJsonvalMap_noDup _) ?_
      intro at' _
      exact noDupErr_ok _
    · intro r' _
      exact noDupErr_ok _

theorem checkActionBehavior_noDup (nsDef : NamespaceDefinition)
    (b : ActionBehavior) : NoDupErr (checkActionBehavior nsDef b) := by
  unfold checkActionBehavior
  split
  · refine noDupErr_error ?_; rfl
  · split
    · dsimp only
      split
      · refine noDupErr_error ?_; rfl
      · exact noDupErr_ok _
    · exact noDupErr_ok _

/-! ## Claim C10 -/

/-- C10: on every `NamespaceDefinition` whose entity-type and action maps
have pairwise distinct keys - as Rust `HashMap` inputs always do - the
duplicate checks opening `from_namespace_definition` cannot fire:
compilation of a single namespace definition never returns
`DuplicateEntityType` or `DuplicateAction` (those errors can only arise when
merging fragments). -/
theorem c10_duplicate_checks_unreachable
    {o : Option String} {nsDef : NamespaceDefinition} {b : ActionBehavior}
    (hde : (nsDef.entityTypes.map (fun q => q.1)).Nodup)
    (hda : (nsDef.actions.map (fun q => q.1)).Nodup) :
    (∀ s, fromNamespaceDefinition o nsDef b ≠ .error (.duplicateEntityType s)) ∧
      (∀ s, fromNamespaceDefinition o nsDef b ≠ .error (.duplicateAction s)) := by
  have hmain : NoDupErr (fromNamespaceDefinition o nsDef b) := by
    unfold fromNamespaceDefinition
    rw [firstDuplicate_none_of_nodup hde [] (fun x _ => List.not_mem_nil x),
        firstDuplicate_none_of_nodup hda [] (fun x _ => List.not_mem_nil x)]
    have htail : ∀ q : List String, NoDupErr ((do
        checkActionBehavior nsDef b
        let typeDefs ← buildTypeDefs nsDef.commonTypes q
        let actions ← buildActionIds nsDef.actions q
        let entityTypes ← buildEntityTypes nsDef.entityTypes q
        Except.ok ⟨(match q.getLast? with
                    | some last => some ⟨q.dropLast, last⟩
                    | none => none),
                   typeDefs, entityTypes, actions⟩ :
        Except SchemaError ValidatorNamespaceDef)) := by
      intro q
      refine noDupErr_bind (checkActionBehavior_noDup nsDef b) ?_
      intro u h₃
      refine noDupErr_bind (buildTypeDefs_noDup nsDef.commonTypes q) ?_
      intro tds h₄
      refine noDupErr_bind (buildActionIds_noDup nsDef.actions q) ?_
      intro acts h₅
      refine noDupErr_bind (buildEntityTypes_noDup nsDef.entityTypes q) ?_
      intro ets h₆
      exact noDupErr_ok _
    refine noDupErr_bind (noDupErr_ok ()) ?_
    intro u h'
    refine noDupErr_bind (noDupErr_ok ()) ?_
    intro u' h''
    dsimp only
    cases o with
    | none =>
        dsimp only
        exact noDupErr_bind (noDupErr_ok []) (fun q _ => htail q)
    | some ns =>
        dsimp only
        cases hp : parseNamespace ns with
        | none =>
            refine noDupErr_bind ?_ (fun q _ => htail q)
            refine noDupErr_error ?_; rfl
        | some parsed =>
            exact noDupErr_bind (noDupErr_ok parsed) (fun q _ => htail q)
  constructor
  · intro s h
    have := hmain _ h
    exact Bool.noConfusion this
  · intro s h
    have := hmain _ h
    exact Bool.noConfusion this

/-- C10, witness: a concrete namespace definition with distinct keys
compiles without either duplicate error. -/
theorem c10_duplicate_checks_unreachable_witness :
    (∀ s, fromNamespaceDefinition none cycEntDef .prohibitAttributes ≠
        .error (.duplicateEntityType s)) ∧
      (∀ s, fromNamespaceDefinition none cycEntDef .prohibitAttributes ≠
        .error (.duplicateAction s)) :=
  c10_duplicate_checks_unreachable (by decide) (by decide)

/-! ## Claim C2 witness -/

/-- The basic success schema of the source's tests: `User memberOf Group`,
`Photo memberOf Album`, one action applying `User`/`Group` to `Photo`. -/
def basicDef : NamespaceDefinition :=
  ⟨[], [("User", ⟨["Group"], emptyShape⟩), ("Group", ⟨[], emptyShape⟩),
        ("Photo", ⟨["Album"], emptyShape⟩), ("Album", ⟨[], emptyShape⟩)],
   [("view_photo", ⟨some ⟨some ["Photo"], some ["User", "Group"], emptyShape⟩, none, none⟩)]⟩

/-- The compiled fragments of `basicDef`. -/
def basicFrags : List (List ValidatorNamespaceDef) :=
  match fromNamespaceDefinition none basicDef .prohibitAttributes with
  | .ok d => [[d]]
  | .error _ => []

def namePhoto : Name := ⟨[], "Photo"⟩

/-- The compiled schema of `basicDef`. -/
def basicSchema : ValidatorSchema :=
  ⟨[(⟨[], "User"⟩, ⟨⟨[], "User"⟩, [], .nil⟩),
    (⟨[], "Group"⟩, ⟨⟨[], "Group"⟩, [⟨[], "User"⟩], .nil⟩),
    (namePhoto, ⟨namePhoto, [], .nil⟩),
    (⟨[], "Album"⟩, ⟨⟨[], "Album"⟩, [namePhoto], .nil⟩)],
   [(uidViewPhoto,
     ⟨uidViewPhoto,
      ⟨[.concrete ⟨[], "Group"⟩, .concrete ⟨[], "User"⟩], [.concrete namePhoto]⟩,
      [], .nil, .nil⟩)]⟩

/-- The action entry of `basicSchema`. -/
def basicViewPhoto : EntityUID × ValidatorActionId :=
  (uidViewPhoto,
   ⟨uidViewPhoto,
    ⟨[.concrete ⟨[], "Group"⟩, .concrete ⟨[], "User"⟩], [.concrete namePhoto]⟩,
    [], .nil, .nil⟩)

/-- C2, witness: in the compiled basic schema, the concrete resource type
`Photo` of `view_photo` is indeed a declared entity type. -/
theorem c2_references_declared_witness :
    containsKey basicSchema.entityTypes namePhoto = true :=
  (@c2_references_declared basicFrags basicSchema (by decide)).2.2
    basicViewPhoto (by decide) namePhoto (Or.inr (by decide))

end CedarSchema
